import Mathlib

/-!
Shallow embedding of the pokemonsnap-splat audio core:
* `src/harmony/albankfile.py` — offset-graph bank-file loader (`Reader`, `read_file`),
* `src/harmony/aifc.py` — AIFC chunk encoder (`pstring`, `serialize_f80`, chunk types),
* `src/music.py` — recursive-descent bank decoder (`ALBankFile.unpack` and friends)
  and the `AifcWriter` / `process_pair` COMM construction.

Buffers are lists of byte values; machine integers are `Nat`/`Int` with explicit
big-endian byte interpretation and two's-complement sign decoding.  Python
exceptions (struct.error, assertion failures, explicit raises) are modelled by
the `Err` type through `Except`.
-/

/-- A byte buffer (python `bytes`). -/
abbrev Buffer := List Nat

/-- Error kinds for the exceptions the python sources can raise. -/
inductive Err where
  /-- `struct.error` from a short read, or an out-of-range `BytesIO.seek`. -/
  | truncatedBuffer
  /-- `Exception("offset already taken")` in `Reader.register`. -/
  | conflictingOffsetType
  /-- `Exception("Unknown type")` for a WaveTable discriminator other than 0/1. -/
  | unknownWaveType
  /-- `assert False` on the raw-16-bit WaveTable branch. -/
  | unsupportedWaveType
  /-- `assert pad_a == 0` / `assert pad_b == 0` failing in `ALWaveTable.unpack`. -/
  | padNonzero
  /-- `struct.error` from a negative repeat count in a format string. -/
  | fmtError
  /-- the coefficient-table length assertion in `VadpcmCodesChunk.serialize`. -/
  | codebookSizeMismatch
  /-- the denormal / infinity / NaN assertions in `serialize_f80`. -/
  | unsupportedFloatValue
  /-- `struct.error` from packing an out-of-range integer. -/
  | rangeError
deriving Repr, DecidableEq

/-- Big-endian interpretation of a byte list. -/
def beNat (l : List Nat) : Nat := l.foldl (fun a b => a * 256 + b) 0

/-- Two's complement interpretation at width `w`. -/
def toSigned (w : Nat) (v : Nat) : Int :=
  if v < 2 ^ (w - 1) then (v : Int) else (v : Int) - 2 ^ w

/-- Unsigned big-endian field of `n` bytes at index `k` of a byte list. -/
def fUF (bs : List Nat) (k n : Nat) : Nat := beNat ((bs.drop k).take n)

/-- struct `>I` field at index `k`. -/
def fU32 (bs : List Nat) (k : Nat) : Nat := fUF bs k 4

/-- struct `>B` field at index `k`. -/
def fU8 (bs : List Nat) (k : Nat) : Nat := fUF bs k 1

/-- struct `>i` field at index `k`. -/
def fS32 (bs : List Nat) (k : Nat) : Int := toSigned 32 (fUF bs k 4)

/-- struct `>h` field at index `k`. -/
def fS16 (bs : List Nat) (k : Nat) : Int := toSigned 16 (fUF bs k 2)

/-- struct `>b` field at index `k`. -/
def fS8 (bs : List Nat) (k : Nat) : Int := toSigned 8 (fUF bs k 1)

/-- An array of `count` big-endian `>i` values starting at byte `start`. -/
def s32Array (bs : List Nat) (start count : Nat) : List Int :=
  (List.range count).map (fun i => fS32 bs (start + 4 * i))

/-- An array of `count` big-endian `>h` values starting at byte `start`. -/
def s16Array (bs : List Nat) (start count : Nat) : List Int :=
  (List.range count).map (fun i => fS16 bs (start + 2 * i))

/-- `io.seek(pos)` followed by `struct.unpack` of an `n`-byte format:
a short or out-of-range read raises `struct.error` / `ValueError`. -/
def rdBytes (buf : Buffer) (pos : Int) (n : Nat) : Except Err (List Nat × Int) :=
  if 0 ≤ pos ∧ pos.toNat + n ≤ buf.length then
    .ok ((buf.drop pos.toNat).take n, pos + n)
  else .error .truncatedBuffer

/-- A negative repeat count in an f-string struct format is a `struct.error`. -/
def intCount (i : Int) : Except Err Nat :=
  if i < 0 then .error .fmtError else .ok i.toNat

/-- python `range(0, 16 * order * npredictors, 2)` iteration count. -/
def bookCount (order npredictors : Int) : Nat := (8 * order * npredictors).toNat

/-- The sequential 2-byte coefficient reads of `ALADPCMBook.unpack`. -/
def rdS16Seq (buf : Buffer) (pos : Int) : Nat → Except Err (List Int × Int)
  | 0 => .ok ([], pos)
  | k + 1 => do
    let (bs, p) ← rdBytes buf pos 2
    let (rest, p') ← rdS16Seq buf p k
    pure (fS16 bs 0 :: rest, p')

/-! ## Record types of `albankfile.py` -/

/-- The record types the `Reader` dispatches on (`item.type`). -/
inductive RTy where
  | bankFile | bank | instrument | sound | envelope | keyMap
  | waveTable | adpcmBook | adpcmLoop
deriving Repr, DecidableEq

/-- `ALEnvelope`. -/
structure HEnvelope where
  attackTime : Int
  decayTime : Int
  releaseTime : Int
  attackVolume : Nat
  decayVolume : Nat
deriving Repr, DecidableEq

/-- `ALKeyMap`. -/
structure HKeyMap where
  velocityMin : Nat
  velocityMax : Nat
  keyMin : Nat
  keyMax : Nat
  keyBase : Nat
  detune : Int
deriving Repr, DecidableEq

/-- `ALADPCMBook`. -/
structure HBook where
  order : Int
  npredictors : Int
  book : List Int
deriving Repr, DecidableEq

/-- `ALADPCMloop`. -/
structure HLoop where
  start : Nat
  finish : Nat
  count : Nat
  state : List Int
deriving Repr, DecidableEq

/-- `ALWaveTable` (harmony): the `loop` / `book` pointers are kept as their
registered offsets, `none` when the offset read was 0. -/
structure HWaveTable where
  base : Nat
  len : Int
  ty : Nat
  flags : Nat
  loop : Option Nat
  book : Option Nat
deriving Repr, DecidableEq

/-- `ALSound` (harmony): envelope / keyMap / wavetable stay raw offsets. -/
structure HSound where
  envelope : Nat
  keyMap : Nat
  wavetable : Nat
  samplePan : Nat
  sampleVolume : Nat
  flags : Nat
deriving Repr, DecidableEq

/-- `ALInstrument` (harmony). -/
structure HInstrument where
  volume : Nat
  pan : Nat
  priority : Nat
  flags : Nat
  tremType : Nat
  tremRate : Nat
  tremDepth : Nat
  tremDelay : Nat
  vibType : Nat
  vibRate : Nat
  vibDepth : Nat
  vibDelay : Nat
  bendRange : Int
  soundCount : Int
  soundArray : List Int
deriving Repr, DecidableEq

/-- `ALBank` (harmony). -/
structure HBank where
  instCount : Int
  flags : Nat
  pad : Nat
  sampleRate : Int
  percussion : Int
  instArray : List Int
deriving Repr, DecidableEq

/-- `ALBankFile` (harmony). -/
structure HBankFile where
  revision : Int
  bankCount : Int
  bankArray : List Int
deriving Repr, DecidableEq

/-- Decoded record values as stored in `ReaderItem.value`. -/
inductive RVal where
  | envelope : HEnvelope → RVal
  | keyMap : HKeyMap → RVal
  | adpcmBook : HBook → RVal
  | adpcmLoop : HLoop → RVal
  | waveTable : HWaveTable → RVal
  | sound : HSound → RVal
  | instrument : HInstrument → RVal
  | bank : HBank → RVal
  | bankFile : HBankFile → RVal
deriving Repr, DecidableEq

/-! ## Harmony decoders

Each decoder returns the decoded value, the cursor position after decoding,
and the list of `reader.register(offset, type)` calls it performs, in order.
In every python decoder all stream reads precede all `register` calls, so
separating the two phases is behaviour-preserving, including error order.
-/

/-- `ALEnvelope.unpack`. -/
def hUnpackEnvelope (buf : Buffer) (pos : Int) :
    Except Err (HEnvelope × Int × List (Int × RTy)) := do
  let (h, p) ← rdBytes buf pos 14
  pure (⟨fS32 h 0, fS32 h 4, fS32 h 8, fU8 h 12, fU8 h 13⟩, p, [])

/-- `ALKeyMap.unpack`. -/
def hUnpackKeyMap (buf : Buffer) (pos : Int) :
    Except Err (HKeyMap × Int × List (Int × RTy)) := do
  let (h, p) ← rdBytes buf pos 6
  pure (⟨fU8 h 0, fU8 h 1, fU8 h 2, fU8 h 3, fU8 h 4, fS8 h 5⟩, p, [])

/-- `ALADPCMBook.unpack`. -/
def hUnpackBook (buf : Buffer) (pos : Int) :
    Except Err (HBook × Int × List (Int × RTy)) := do
  let (h, p) ← rdBytes buf pos 8
  let (cs, p') ← rdS16Seq buf p (bookCount (fS32 h 0) (fS32 h 4))
  pure (⟨fS32 h 0, fS32 h 4, cs⟩, p', [])

/-- `ALADPCMloop.unpack`. -/
def hUnpackLoop (buf : Buffer) (pos : Int) :
    Except Err (HLoop × Int × List (Int × RTy)) := do
  let (h, p) ← rdBytes buf pos 12
  let (st, p') ← rdBytes buf p 32
  pure (⟨fU32 h 0, fU32 h 4, fU32 h 8, s16Array st 0 16⟩, p', [])

/-- `ALWaveTable.unpack` (harmony). -/
def hUnpackWaveTable (buf : Buffer) (pos : Int) :
    Except Err (HWaveTable × Int × List (Int × RTy)) := do
  let (h, p) ← rdBytes buf pos 12
  if fU8 h 10 ≠ 0 then .error .padNonzero
  else if fU8 h 11 ≠ 0 then .error .padNonzero
  else if fU8 h 8 = 0 then do
    let (lb, p') ← rdBytes buf p 8
    pure (⟨fU32 h 0, fS32 h 4, fU8 h 8, fU8 h 9,
           (if fU32 lb 0 ≠ 0 then some (fU32 lb 0) else none),
           (if fU32 lb 4 ≠ 0 then some (fU32 lb 4) else none)⟩, p',
          (if fU32 lb 0 ≠ 0 then [((fU32 lb 0 : Int), RTy.adpcmLoop)] else []) ++
          (if fU32 lb 4 ≠ 0 then [((fU32 lb 4 : Int), RTy.adpcmBook)] else []))
  else if fU8 h 8 = 1 then do
    let (_, _) ← rdBytes buf p 4
    .error .unsupportedWaveType
  else .error .unknownWaveType

/-- `ALSound.unpack` (harmony). -/
def hUnpackSound (buf : Buffer) (pos : Int) :
    Except Err (HSound × Int × List (Int × RTy)) := do
  let (h, p) ← rdBytes buf pos 15
  pure (⟨fU32 h 0, fU32 h 4, fU32 h 8, fU8 h 12, fU8 h 13, fU8 h 14⟩, p,
        [((fU32 h 8 : Int), RTy.waveTable), ((fU32 h 0 : Int), RTy.envelope),
         ((fU32 h 4 : Int), RTy.keyMap)])

/-- `ALInstrument.unpack` (harmony). -/
def hUnpackInstrument (buf : Buffer) (pos : Int) :
    Except Err (HInstrument × Int × List (Int × RTy)) := do
  let (h, p) ← rdBytes buf pos 16
  let n ← intCount (fS16 h 14)
  let (ab, p') ← rdBytes buf p (4 * n)
  pure (⟨fU8 h 0, fU8 h 1, fU8 h 2, fU8 h 3, fU8 h 4, fU8 h 5, fU8 h 6, fU8 h 7,
         fU8 h 8, fU8 h 9, fU8 h 10, fU8 h 11, fS16 h 12, fS16 h 14,
         s32Array ab 0 n⟩, p',
        (s32Array ab 0 n).map (fun o => (o, RTy.sound)))

/-- `ALBank.unpack` (harmony). -/
def hUnpackBank (buf : Buffer) (pos : Int) :
    Except Err (HBank × Int × List (Int × RTy)) := do
  let (h, p) ← rdBytes buf pos 8
  let n ← intCount (fS16 h 0)
  let (ab, p') ← rdBytes buf p (4 * (1 + n))
  pure (⟨fS16 h 0, fU8 h 2, fU8 h 3, fS32 h 4, fS32 ab 0, s32Array ab 4 n⟩, p',
        (if fS32 ab 0 ≠ 0 then [(fS32 ab 0, RTy.instrument)] else []) ++
        ((s32Array ab 4 n).filter (fun o => o ≠ 0)).map (fun o => (o, RTy.instrument)))

/-- `ALBankFile.unpack` (harmony). -/
def hUnpackBankFile (buf : Buffer) (pos : Int) :
    Except Err (HBankFile × Int × List (Int × RTy)) := do
  let (h, p) ← rdBytes buf pos 4
  let n ← intCount (fS16 h 2)
  let (ab, p') ← rdBytes buf p (4 * n)
  pure (⟨fS16 h 0, fS16 h 2, s32Array ab 0 n⟩, p',
        (s32Array ab 0 n).map (fun o => (o, RTy.bank)))

/-- Dispatch on `item.type.unpack` in `Reader.resolve`. -/
def unpackPure (ty : RTy) (buf : Buffer) (pos : Int) :
    Except Err (RVal × Int × List (Int × RTy)) :=
  match ty with
  | .envelope => (hUnpackEnvelope buf pos).map (fun r => (RVal.envelope r.1, r.2))
  | .keyMap => (hUnpackKeyMap buf pos).map (fun r => (RVal.keyMap r.1, r.2))
  | .adpcmBook => (hUnpackBook buf pos).map (fun r => (RVal.adpcmBook r.1, r.2))
  | .adpcmLoop => (hUnpackLoop buf pos).map (fun r => (RVal.adpcmLoop r.1, r.2))
  | .waveTable => (hUnpackWaveTable buf pos).map (fun r => (RVal.waveTable r.1, r.2))
  | .sound => (hUnpackSound buf pos).map (fun r => (RVal.sound r.1, r.2))
  | .instrument => (hUnpackInstrument buf pos).map (fun r => (RVal.instrument r.1, r.2))
  | .bank => (hUnpackBank buf pos).map (fun r => (RVal.bank r.1, r.2))
  | .bankFile => (hUnpackBankFile buf pos).map (fun r => (RVal.bankFile r.1, r.2))

/-! ## The `Reader` -/

/-- `ReaderItem`. -/
structure RItem where
  offset : Int
  ty : RTy
  size : Int := -1
  value : Option RVal := none
deriving Repr, DecidableEq

/-- `Reader` state: the item table and the `changed` flag.  `log` is a ghost
field recording, in order, the offset of each completed decoder invocation of
`resolve`; it influences nothing. -/
structure RState where
  items : List RItem
  changed : Bool
  log : List Int
deriving Repr, DecidableEq

/-- `Reader.register`: linear scan for the offset; same type returns the
existing slot's pointer, a different type raises, otherwise append and set
`changed`.  The returned `Int` is the `Pointer`'s offset. -/
def Reader.register (st : RState) (o : Int) (ty : RTy) : Except Err (RState × Int) :=
  match st.items.find? (fun it => it.offset == o) with
  | some it => if it.ty = ty then .ok (st, o) else .error .conflictingOffsetType
  | none =>
      .ok ({ st with items := st.items ++ [{ offset := o, ty := ty }], changed := true }, o)

/-- The sequence of `register` calls a decoder performs. -/
def registerAll (st : RState) : List (Int × RTy) → Except Err RState
  | [] => .ok st
  | (o, ty) :: rest => do
    let (st', _) ← Reader.register st o ty
    registerAll st' rest

/-- One iteration of the `for item in self.items` body of `Reader.resolve`:
seek to the item's offset, run its type's decoder (which performs its
`register` calls), then store the decoded value and consumed size. -/
def decodeItem (buf : Buffer) (st : RState) (i : Nat) : Except Err RState :=
  match st.items[i]? with
  | none => .error .truncatedBuffer
  | some it => do
    let (v, e, regs) ← unpackPure it.ty buf it.offset
    let st1 ← registerAll st regs
    .ok { st1 with
          items := st1.items.set i { it with value := some v, size := e - it.offset },
          log := st1.log ++ [it.offset] }

/-- One full pass of `Reader.resolve` starting at index `i`; python's list
iterator also visits items appended during the pass.  `fuel` bounds the
number of iterations; `none` means fuel ran out. -/
def passFrom (buf : Buffer) : Nat → RState → Nat → Option (Except Err RState)
  | 0, st, i => if i < st.items.length then none else some (.ok st)
  | fuel + 1, st, i =>
    if i < st.items.length then
      match decodeItem buf st i with
      | .error e => some (.error e)
      | .ok st' => passFrom buf fuel st' (i + 1)
    else some (.ok st)

/-- The `while self.changed` loop of `Reader.resolve`, fuelled by the number
of passes. -/
def resolveFuel (buf : Buffer) : Nat → RState → Option (Except Err RState)
  | 0, st => if st.changed then none else some (.ok st)
  | fuel + 1, st =>
    if st.changed then
      match passFrom buf (buf.length + 2) { st with changed := false } 0 with
      | none => none
      | some (.error e) => some (.error e)
      | some (.ok st') => resolveFuel buf fuel st'
    else some (.ok st)

/-- `read_file`: fresh reader, register the root `ALBankFile` at offset 0,
resolve to fixpoint.  `buf.length + 2` passes are enough (proved below). -/
def read_file (buffer : Buffer) : Option (Except Err RState) :=
  match Reader.register { items := [], changed := false, log := [] } 0 RTy.bankFile with
  | .error e => some (.error e)
  | .ok (st, _) => resolveFuel buffer (buffer.length + 2) st

/-- `Reader.get`. -/
def Reader.get (st : RState) (o : Int) : Option RVal :=
  match st.items.find? (fun it => it.offset == o) with
  | some it => it.value
  | none => none

/-- `Reader.all`: the `item.value` of every item of the given type, in
registration order. -/
def Reader.all (st : RState) (ty : RTy) : List (Option RVal) :=
  (st.items.filter (fun it => it.ty == ty)).map (fun it => it.value)

/-! ## `music.py` recursive-descent decoder

`struct.unpack_from(fmt, buffer, offset)` resolves a negative offset from the
end of the buffer, so the music decoders resolve each read's position
separately instead of threading a cursor. -/

/-- `struct.unpack_from` offset resolution. -/
def resolveOff (buf : Buffer) (pos : Int) : Int :=
  if pos < 0 then (buf.length : Int) + pos else pos

/-- One `struct.unpack_from` read of `n` bytes. -/
def rdBytesM (buf : Buffer) (pos : Int) (n : Nat) : Except Err (List Nat) :=
  (rdBytes buf (resolveOff buf pos) n).map (fun r => r.1)

/-- The per-coefficient `unpack_from(">h", buffer, offset + i)` reads of
`music.py`'s `ALADPCMBook.unpack_from`. -/
def rdS16SeqM (buf : Buffer) (pos : Int) : Nat → Except Err (List Int)
  | 0 => .ok []
  | k + 1 => do
    let bs ← rdBytesM buf pos 2
    let rest ← rdS16SeqM buf (pos + 2) k
    pure (fS16 bs 0 :: rest)

/-- `music.py` `ALADPCMBook`. -/
structure MBook where
  order : Int
  npredictors : Int
  book : List Int
deriving Repr, DecidableEq

/-- `music.py` `ALADPCMBook.unpack_from`. -/
def mUnpackBook (buf : Buffer) (off : Int) : Except Err MBook := do
  let h ← rdBytesM buf off 8
  let cs ← rdS16SeqM buf (off + 8) (bookCount (fS32 h 0) (fS32 h 4))
  pure ⟨fS32 h 0, fS32 h 4, cs⟩

/-- `music.py` `ALADPCMloop.unpack_from` is an unparsing stub. -/
def mUnpackLoop (_buf : Buffer) (_off : Int) : Except Err Unit := .ok ()

/-- `music.py` `ALWaveTable`: the ADPCM branch eagerly decodes its book (and
a stub loop); the raw-16-bit branch stores no book. -/
structure MWaveTable where
  base : Nat
  len : Int
  ty : Nat
  flags : Nat
  book : Option MBook
deriving Repr, DecidableEq

/-- `music.py` `ALWaveTable.unpack_from`: note there are no pad-byte
assertions and the type-1 branch returns the table after one discarded
`u32` read. -/
def mUnpackWaveTable (buf : Buffer) (off : Int) : Except Err MWaveTable := do
  let h ← rdBytesM buf off 12
  if fU8 h 8 = 0 then do
    let lb ← rdBytesM buf (off + 12) 8
    let _ ← mUnpackLoop buf (fU32 lb 0)
    let bk ← mUnpackBook buf (fU32 lb 4)
    pure ⟨fU32 h 0, fS32 h 4, fU8 h 8, fU8 h 9, some bk⟩
  else if fU8 h 8 = 1 then do
    let _ ← rdBytesM buf (off + 12) 4
    pure ⟨fU32 h 0, fS32 h 4, fU8 h 8, fU8 h 9, none⟩
  else .error .unknownWaveType

/-- `music.py` `ALSound` (wavetable decoded inline, envelope / keyMap kept
as raw offsets). -/
structure MSound where
  envelope : Nat
  keyMap : Nat
  wavetable : MWaveTable
  samplePan : Nat
  sampleVolume : Nat
  flags : Nat
deriving Repr, DecidableEq

/-- `music.py` `ALSound.unpack_from`. -/
def mUnpackSound (buf : Buffer) (off : Int) : Except Err MSound := do
  let h ← rdBytesM buf off 15
  let wt ← mUnpackWaveTable buf (fU32 h 8)
  pure ⟨fU32 h 0, fU32 h 4, wt, fU8 h 12, fU8 h 13, fU8 h 14⟩

/-- `music.py` `ALInstrument`. -/
structure MInstrument where
  volume : Nat
  pan : Nat
  priority : Nat
  flags : Nat
  tremType : Nat
  tremRate : Nat
  tremDepth : Nat
  tremDelay : Nat
  vibType : Nat
  vibRate : Nat
  vibDepth : Nat
  vibDelay : Nat
  bendRange : Int
  soundCount : Int
  soundArray : List MSound
deriving Repr, DecidableEq

/-- `music.py` `ALInstrument.unpack_from`. -/
def mUnpackInstrument (buf : Buffer) (off : Int) : Except Err MInstrument := do
  let h ← rdBytesM buf off 16
  let n ← intCount (fS16 h 14)
  let ab ← rdBytesM buf (off + 16) (4 * n)
  let sounds ← (s32Array ab 0 n).mapM (mUnpackSound buf)
  pure ⟨fU8 h 0, fU8 h 1, fU8 h 2, fU8 h 3, fU8 h 4, fU8 h 5, fU8 h 6, fU8 h 7,
        fU8 h 8, fU8 h 9, fU8 h 10, fU8 h 11, fS16 h 12, fS16 h 14, sounds⟩

/-- `music.py` `ALBank`. -/
structure MBank where
  instCount : Int
  flags : Nat
  pad : Nat
  sampleRate : Int
  percussion : Option MInstrument
  instArray : List MInstrument
deriving Repr, DecidableEq

/-- `music.py` `ALBank.unpack_from`: every `instArray` slot is decoded, the
zero check is commented out in the source; only percussion skips offset 0. -/
def mUnpackBank (buf : Buffer) (off : Int) : Except Err MBank := do
  let h ← rdBytesM buf off 8
  let n ← intCount (fS16 h 0)
  let ab ← rdBytesM buf (off + 8) (4 * (1 + n))
  let perc ← if fS32 ab 0 ≠ 0
    then (mUnpackInstrument buf (fS32 ab 0)).map some
    else pure none
  let insts ← (s32Array ab 4 n).mapM (mUnpackInstrument buf)
  pure ⟨fS16 h 0, fU8 h 2, fU8 h 3, fS32 h 4, perc, insts⟩

/-- `music.py` `ALBankFile`. -/
structure MBankFile where
  revision : Int
  bankCount : Int
  bankArray : List MBank
deriving Repr, DecidableEq

/-- `music.py` `ALBankFile.unpack`. -/
def mUnpackBankFile (buf : Buffer) : Except Err MBankFile := do
  let h ← rdBytesM buf 0 4
  let n ← intCount (fS16 h 2)
  let ab ← rdBytesM buf 4 (4 * n)
  let banks ← (s32Array ab 0 n).mapM (mUnpackBank buf)
  pure ⟨fS16 h 0, fS16 h 2, banks⟩

/-! ## `aifc.py` container encoder -/

/-- Big-endian byte serialisation of `v` into `n` bytes. -/
def beBytes : Nat → Nat → List Nat
  | 0, _ => []
  | n + 1, v => beBytes n (v / 256) ++ [v % 256]

/-- `struct.pack` of an unsigned big-endian field (`>B`/`>H`/`>I`):
out-of-range values raise `struct.error`. -/
def packUInt (w : Nat) (v : Int) : Except Err (List Nat) :=
  if 0 ≤ v ∧ v < (256 : Int) ^ w then .ok (beBytes w v.toNat) else .error .rangeError

/-- `struct.pack` of a signed big-endian field (`>b`/`>h`/`>i`). -/
def packSInt (w : Nat) (v : Int) : Except Err (List Nat) :=
  if -((256 : Int) ^ w / 2) ≤ v ∧ v < (256 : Int) ^ w / 2 then
    .ok (beBytes w (v % (256 : Int) ^ w).toNat)
  else .error .rangeError

/-- `pstring` (same code in `aifc.py` and `music.py`): one length byte, the
data, then a zero pad byte only when `len(data)` is even; `bytes([n])`
raises for a length above 255. -/
def pstring (data : List Nat) : Except Err (List Nat) :=
  if data.length < 256 then
    .ok ((data.length :: data) ++ (if data.length % 2 = 1 then [] else [0]))
  else .error .rangeError

/-- `serialize_f80` (same code in `aifc.py` and `music.py`), over the IEEE-754
bit pattern of the input double.  `num == 0.0` holds exactly when the bits
with the sign cleared are all zero. -/
def serialize_f80 (f64 : Nat) : Except Err (List Nat) :=
  let sb := f64 &&& 2 ^ 63
  if f64 ^^^ sb = 0 then
    if sb ≠ 0 then .ok (0x80 :: List.replicate 9 0) else .ok (List.replicate 10 0)
  else
    let exponent := (f64 ^^^ sb) >>> 52
    if exponent = 0 then .error .unsupportedFloatValue
    else if exponent = 0x7FF then .error .unsupportedFloatValue
    else
      let mant := f64 &&& (2 ^ 52 - 1)
      .ok (beBytes 2 ((sb >>> 63) * 2 ^ 15 + ((exponent + 0x3FFF) - 1023)) ++
           beBytes 8 (2 ^ 63 ||| (mant <<< 11)))

/-- `CommonChunk`; `sample_rate` is the bit pattern of the python float. -/
structure CommonChunk where
  num_channels : Int
  num_frames : Int
  sample_size : Int
  sample_rate : Nat
  compression_type : List Nat
  compression_string : List Nat
deriving Repr, DecidableEq

/-- `CommonChunk.serialize`: header + body, with no pad byte. -/
def CommonChunk.serialize (c : CommonChunk) : Except Err (List Nat) := do
  let a ← packSInt 2 c.num_channels
  let b ← packUInt 4 c.num_frames
  let d ← packSInt 2 c.sample_size
  let e ← serialize_f80 c.sample_rate
  let f ← pstring c.compression_string
  let data := a ++ b ++ d ++ e ++ c.compression_type ++ f
  let hdr ← packSInt 4 (data.length : Int)
  pure ([0x43, 0x4F, 0x4D, 0x4D] ++ hdr ++ data)

/-- `SoundDataChunk`. -/
structure SoundDataChunk where
  offset : Int
  block_size : Int
  soundData : List Nat
deriving Repr, DecidableEq

/-- `SoundDataChunk.serialize`: header + body, plus one zero pad byte when
the body length is odd; the declared length excludes the pad. -/
def SoundDataChunk.serialize (c : SoundDataChunk) : Except Err (List Nat) := do
  let a ← packUInt 4 c.offset
  let b ← packUInt 4 c.block_size
  let data := a ++ b ++ c.soundData
  let hdr ← packSInt 4 (data.length : Int)
  pure ([0x53, 0x53, 0x4E, 0x44] ++ hdr ++ data ++
        (if data.length % 2 = 0 then [] else [0]))

/-- The bytes of `b"VADPCMCODES"`. -/
def vadpcmCodesTag : List Nat := [0x56, 0x41, 0x44, 0x50, 0x43, 0x4D, 0x43, 0x4F, 0x44, 0x45, 0x53]

/-- `VadpcmCodesChunk` (`version = 1` is a class constant). -/
structure VadpcmCodesChunk where
  order : Int
  nEntries : Int
  tableData : List Int
deriving Repr, DecidableEq

/-- `VadpcmCodesChunk.serialize`: packs the fields, then asserts that the
packed coefficient table's byte length equals `order * nEntries * 16`. -/
def VadpcmCodesChunk.serialize (c : VadpcmCodesChunk) : Except Err (List Nat) := do
  let ps ← pstring vadpcmCodesTag
  let v ← packUInt 2 1
  let o ← packSInt 2 c.order
  let n ← packUInt 2 c.nEntries
  let table ← c.tableData.mapM (packSInt 2)
  let table_data := table.flatten
  if (table_data.length : Int) = c.order * c.nEntries * 16 then
    let data := [0x73, 0x74, 0x6F, 0x63] ++ ps ++ v ++ o ++ n ++ table_data
    let hdr ← packSInt 4 (data.length : Int)
    pure ([0x41, 0x50, 0x50, 0x4C] ++ hdr ++ data)
  else .error .codebookSizeMismatch

/-! ## `music.py` `AifcWriter` / `process_pair` COMM construction -/

/-- `AifcWriter.finish`'s per-section output: tag, big-endian length of the
data, the data, then one zero pad byte when the data length is odd. -/
def writeSection (tp : List Nat) (data : List Nat) : Except Err (List Nat) := do
  let l ← packUInt 4 (data.length : Int)
  pure (tp ++ l ++ data ++ (if data.length % 2 = 1 then [0] else []))

/-- The IEEE-754 bit pattern of `22050.0`. -/
def f64of22050 : Nat := 1036 * 2 ^ 52 + 22050 * 2 ^ 38

/-- The bytes of `b"VADPCM ~4-1"`. -/
def vadpcmVerStr : List Nat := [0x56, 0x41, 0x44, 0x50, 0x43, 0x4D, 0x20, 0x7E, 0x34, 0x2D, 0x31]

/-- The COMM chunk body `process_pair` builds for a raw payload `data`:
`struct.pack(">hIh", 1, len(data) * 16 // 9, 16)`, the 80-bit sample rate
22050, the tag `b"VAPC"` and the pstring `b"VADPCM ~4-1"`. -/
def buildComm (data : List Nat) : Except Err (List Nat) := do
  let a ← packSInt 2 1
  let b ← packUInt 4 ((data.length : Int) * 16 / 9)
  let c ← packSInt 2 16
  let e ← serialize_f80 f64of22050
  let f ← pstring vadpcmVerStr
  pure (a ++ b ++ c ++ e ++ [0x56, 0x41, 0x50, 0x43] ++ f)

/-! ## Invariant predicates over the reader -/

/-- No two item-table entries share an offset. -/
def distinctOffsets (items : List RItem) : Prop :=
  items.Pairwise (fun a b => a.offset ≠ b.offset)

/-- Offset/type signature of an item (stable across decoding). -/
def sigOf (it : RItem) : Int × RTy := (it.offset, it.ty)

/-- The offset/type signatures of the item table, in slot order. -/
def sigs (st : RState) : List (Int × RTy) := st.items.map sigOf

/-- The pair `(offset, type)` has a slot in the item table. -/
def RegPresent (st : RState) (p : Int × RTy) : Prop :=
  p ∈ sigs st

/-- Number of slots of type `ALBankFile` in the item table. -/
def bfCount (st : RState) : Nat :=
  ((sigs st).filter (fun p => p.2 == RTy.bankFile)).length

/-- The item holds exactly the value its type's decoder produces at its
offset, and every registration that decoder performs has a slot. -/
def ProcessedIn (buf : Buffer) (st : RState) (it : RItem) : Prop :=
  ∃ v e regs, unpackPure it.ty buf it.offset = .ok (v, e, regs) ∧
    it.value = some v ∧ it.size = e - it.offset ∧ ∀ p ∈ regs, RegPresent st p

/-! ## Concrete inputs -/

/-- 20-byte bank file: one empty bank at offset 8
(revision 0, bankCount 1, bankArray `[8]`; bank: instCount 0, sampleRate
22050, percussion 0). -/
def buf20 : Buffer :=
  [0, 0, 0, 1, 0, 0, 0, 8,
   0, 0, 0, 0, 0, 0, 0x56, 0x22, 0, 0, 0, 0]

/-- 124-byte bank file exercising the whole graph:
BankFile(rev 1, 1 bank at 0x08) → Bank(1 instrument at 0x18, rate 22050) →
Instrument(1 sound at 0x2C) → Sound(envelope 0x3C, keyMap 0x4A,
waveTable 0x50) → WaveTable(type 0, loop 0, book 0x64) → Book(order 1,
npredictors 1, 8 coefficients). -/
def buf124 : Buffer :=
  [0, 1, 0, 1, 0, 0, 0, 8] ++
  [0, 1, 0, 0, 0, 0, 0x56, 0x22, 0, 0, 0, 0, 0, 0, 0, 0x18] ++
  [0x7F, 0x40, 5, 0, 0, 0, 0, 0, 0, 0, 0, 0, 0, 0xC8, 0, 1, 0, 0, 0, 0x2C] ++
  [0, 0, 0, 0x3C, 0, 0, 0, 0x4A, 0, 0, 0, 0x50, 64, 127, 0] ++
  [0] ++
  [0, 0, 0, 5, 0, 0, 0, 6, 0, 0, 0, 7, 127, 0] ++
  [0, 127, 0, 127, 60, 0xFF] ++
  [0, 0, 1, 0, 0, 0, 0, 0x20, 0, 0, 0, 0, 0, 0, 0, 0, 0, 0, 0, 0x64] ++
  [0, 0, 0, 1, 0, 0, 0, 1, 0, 1, 0, 2, 0, 3, 0, 4, 255, 255, 0, 6, 0, 7, 0, 8]

/-- A 16-byte WaveTable record with the raw-16-bit discriminator (type 1). -/
def bufWT1 : Buffer :=
  [0, 0, 0, 0, 0, 0, 0, 16, 1, 0, 0, 0, 0, 0, 0, 0]

/-- Codebook header order=2 / npredictors=4 followed by 129 coefficient
bytes (one more than the 128 the size invariant dictates). -/
def cbBuf129 : Buffer := [0, 0, 0, 2, 0, 0, 0, 4] ++ List.replicate 129 0

/-- Codebook header order=2 / npredictors=4 followed by 127 coefficient
bytes (one less than the 128 the size invariant dictates). -/
def cbBuf127 : Buffer := [0, 0, 0, 2, 0, 0, 0, 4] ++ List.replicate 127 0

/-- A CommonChunk whose body length is odd (3-byte compression type,
zero sample rate, empty compression string). -/
def commOdd : CommonChunk := ⟨1, 0, 16, 0, [1, 2, 3], []⟩

/-- Extract the reader state from a successful `read_file` result. -/
def stateOf : Option (Except Err RState) → RState
  | some (.ok st) => st
  | _ => { items := [], changed := false, log := [] }

/-- Extract a decoded bank file from a successful `mUnpackBankFile`. -/
def mbfOf : Except Err MBankFile → MBankFile
  | .ok f => f
  | _ => ⟨0, 0, []⟩

/-- Extract serialized bytes from a successful chunk encoder. -/
def exListOf : Except Err (List Nat) → List Nat
  | .ok l => l
  | _ => []

/-- The reader state `read_file` produces on `buf20`. -/
def rd20 : RState := stateOf (read_file buf20)

/-- The reader state `read_file` produces on `buf124`. -/
def rd124 : RState := stateOf (read_file buf124)

/-- The bank file `music.py` decodes from `buf124`. -/
def mf124 : MBankFile := mbfOf (mUnpackBankFile buf124)

/-- The serialized bytes of `commOdd`. -/
def commOddBytes : List Nat := exListOf (CommonChunk.serialize commOdd)

/-- A one-item reader state used to witness registration behaviour. -/
def stW : RState := { items := [{ offset := 8, ty := RTy.bank }], changed := false, log := [] }

/-! ## Loader correspondence (C10)

`music.py` decodes the graph by recursive descent into nested records while
`albankfile.py`'s `Reader` flattens it into the item table; the `Rel*`
predicates state that a music record and the reader slot at the same offset
carry identical scalar fields, recursing through the reader's stored
offsets. -/

/-- A bank slot's `instArray` holds no zero offset (trivially true for
non-bank slots). -/
def bankNoZero (it : RItem) : Bool :=
  match it.value with
  | some (RVal.bank hb) => hb.instArray.all (fun x => !(x == 0))
  | _ => true

/-- A wave-table slot has the compressed-ADPCM discriminator (trivially true
for other slots). -/
def wtAdpcm (it : RItem) : Bool :=
  match it.value with
  | some (RVal.waveTable hw) => hw.ty == 0
  | _ => true

/-- The reader slot at `o` holds a codebook with the same scalar fields as
the music codebook `mb`. -/
def RelBook (rd : RState) (o : Int) (mb : MBook) : Prop :=
  ∃ hb : HBook, Reader.get rd o = some (RVal.adpcmBook hb) ∧
    hb.order = mb.order ∧ hb.npredictors = mb.npredictors ∧ hb.book = mb.book

/-- The reader slot at `o` holds a wave table with the same scalar fields as
the music wave table `mw`, and every codebook the reader reached from it
agrees with the music codebook. -/
def RelWaveTable (rd : RState) (o : Int) (mw : MWaveTable) : Prop :=
  ∃ hw : HWaveTable, Reader.get rd o = some (RVal.waveTable hw) ∧
    hw.base = mw.base ∧ hw.len = mw.len ∧ hw.ty = mw.ty ∧ hw.flags = mw.flags ∧
    ∀ bo, hw.book = some bo → ∃ mb, mw.book = some mb ∧ RelBook rd (bo : Int) mb

/-- The reader slot at `o` holds a sound with the same scalar fields as the
music sound `ms` (music keeps envelope / keyMap as raw offsets too), and its
wave-table slot agrees with the music sound's inline wave table. -/
def RelSound (rd : RState) (o : Int) (ms : MSound) : Prop :=
  ∃ hs : HSound, Reader.get rd o = some (RVal.sound hs) ∧
    hs.envelope = ms.envelope ∧ hs.keyMap = ms.keyMap ∧
    hs.samplePan = ms.samplePan ∧ hs.sampleVolume = ms.sampleVolume ∧
    hs.flags = ms.flags ∧ RelWaveTable rd (hs.wavetable : Int) ms.wavetable

/-- The reader slot at `o` holds an instrument with the same scalar fields as
the music instrument `mi`, and their sound lists agree slotwise. -/
def RelInstrument (rd : RState) (o : Int) (mi : MInstrument) : Prop :=
  ∃ hi : HInstrument, Reader.get rd o = some (RVal.instrument hi) ∧
    hi.volume = mi.volume ∧ hi.pan = mi.pan ∧ hi.priority = mi.priority ∧
    hi.flags = mi.flags ∧ hi.tremType = mi.tremType ∧ hi.tremRate = mi.tremRate ∧
    hi.tremDepth = mi.tremDepth ∧ hi.tremDelay = mi.tremDelay ∧
    hi.vibType = mi.vibType ∧ hi.vibRate = mi.vibRate ∧
    hi.vibDepth = mi.vibDepth ∧ hi.vibDelay = mi.vibDelay ∧
    hi.bendRange = mi.bendRange ∧ hi.soundCount = mi.soundCount ∧
    List.Forall₂ (fun so msnd => RelSound rd so msnd) hi.soundArray mi.soundArray

/-- The reader slot at `o` holds a bank with the same scalar fields as the
music bank `mb`, its percussion pointer agrees (0 exactly when music decoded
none), and their instrument lists agree slotwise. -/
def RelBank (rd : RState) (o : Int) (mb : MBank) : Prop :=
  ∃ hb : HBank, Reader.get rd o = some (RVal.bank hb) ∧
    hb.instCount = mb.instCount ∧ hb.flags = mb.flags ∧ hb.pad = mb.pad ∧
    hb.sampleRate = mb.sampleRate ∧
    (∀ mi, mb.percussion = some mi → hb.percussion ≠ 0 ∧ RelInstrument rd hb.percussion mi) ∧
    (mb.percussion = none → hb.percussion = 0) ∧
    List.Forall₂ (fun io mi => RelInstrument rd io mi) hb.instArray mb.instArray

/-- The reader's root slot holds a bank file with the same scalar fields as
the music bank file `mf`, and their bank lists agree slotwise. -/
def RelBankFile (rd : RState) (mf : MBankFile) : Prop :=
  ∃ hf : HBankFile, Reader.get rd 0 = some (RVal.bankFile hf) ∧
    hf.revision = mf.revision ∧ hf.bankCount = mf.bankCount ∧
    List.Forall₂ (fun bo mb => RelBank rd bo mb) hf.bankArray mf.bankArray

/-! # Helper lemmas -/

theorem exceptBind_ok {α β : Type} {x : Except Err α} {f : α → Except Err β} {b : β}
    (h : (x >>= f) = .ok b) : ∃ a, x = .ok a ∧ f a = .ok b := by
  cases x with
  | error e => simp [Bind.bind, Except.bind] at h
  | ok a => exact ⟨a, rfl, h⟩

theorem beBytes_length (n v : Nat) : (beBytes n v).length = n := by
  induction n generalizing v with
  | zero => rfl
  | succ n ih => simp [beBytes, ih]

theorem beNat_append (l : List Nat) (b : Nat) : beNat (l ++ [b]) = beNat l * 256 + b := by
  simp [beNat, List.foldl_append]

theorem beNat_beBytes (n v : Nat) (h : v < 256 ^ n) : beNat (beBytes n v) = v := by
  induction n generalizing v with
  | zero =>
    have : v = 0 := by simpa using h
    simp [this, beBytes, beNat]
  | succ n ih =>
    rw [beBytes, beNat_append, ih (v / 256) ?_]
    · omega
    · have : 256 ^ (n + 1) = 256 * 256 ^ n := by ring
      rw [this] at h
      exact Nat.div_lt_of_lt_mul h

theorem rdBytes_ok {buf : Buffer} {pos : Int} {n : Nat} {bs : List Nat} {p : Int}
    (h : rdBytes buf pos n = .ok (bs, p)) :
    0 ≤ pos ∧ pos.toNat + n ≤ buf.length ∧ bs = (buf.drop pos.toNat).take n ∧
      p = pos + n ∧ bs.length = n := by
  unfold rdBytes at h
  split at h
  · next hc =>
    injection h with h'
    obtain ⟨h1, h2⟩ := Prod.mk.injEq .. ▸ h'
    refine ⟨hc.1, hc.2, h1.symm, h2.symm, ?_⟩
    subst h1
    simp only [List.length_take, List.length_drop]
    omega
  · exact absurd h (by simp)

theorem rdS16Seq_ok {buf : Buffer} {k : Nat} {pos : Int} {l : List Int} {p' : Int}
    (h : rdS16Seq buf pos k = .ok (l, p')) :
    l.length = k ∧ p' = pos + 2 * k := by
  induction k generalizing pos l p' with
  | zero =>
    simp only [rdS16Seq] at h
    injection h with h'
    obtain ⟨h1, h2⟩ := Prod.mk.injEq .. ▸ h'
    simp [← h1, ← h2]
  | succ k ih =>
    simp only [rdS16Seq] at h
    obtain ⟨⟨bs, p⟩, hrd, h2⟩ := exceptBind_ok h
    obtain ⟨⟨rest, pr⟩, hrec, h3⟩ := exceptBind_ok h2
    obtain ⟨-, -, -, hp, -⟩ := rdBytes_ok hrd
    obtain ⟨hlen, hpr⟩ := ih hrec
    injection h3 with h4
    obtain ⟨h5, h6⟩ := Prod.mk.injEq .. ▸ h4
    subst hp hpr
    constructor
    · rw [← h5]; simp [hlen]
    · omega

theorem and_pow63_of_lt {n : Nat} (h : n < 2 ^ 63) : n &&& 2 ^ 63 = 0 := by
  rw [Nat.and_two_pow, Nat.testBit_lt_two_pow h]
  rfl

theorem and_pow63_add {n : Nat} (h : n < 2 ^ 63) : (2 ^ 63 + n) &&& 2 ^ 63 = 2 ^ 63 := by
  rw [Nat.and_two_pow, Nat.testBit_two_pow_add_eq, Nat.testBit_lt_two_pow h]
  simp

theorem xor_pow63_add {n : Nat} (h : n < 2 ^ 63) : (2 ^ 63 + n) ^^^ 2 ^ 63 = n := by
  apply Nat.eq_of_testBit_eq
  intro j
  rw [Nat.testBit_xor]
  rcases eq_or_ne j 63 with rfl | hj
  · rw [Nat.testBit_two_pow_add_eq, Nat.testBit_lt_two_pow h, Nat.testBit_two_pow_self]
    rfl
  · rw [Nat.testBit_two_pow_of_ne (fun hc => hj hc.symm)]
    rcases Nat.lt_or_ge j 63 with hl | hg
    · rw [Nat.testBit_two_pow_add_gt hl]
      exact Bool.xor_false _
    · have hj64 : 64 ≤ j := by omega
      have h1 : (2 : Nat) ^ 63 + n < 2 ^ j :=
        lt_of_lt_of_le (by omega)
          (Nat.pow_le_pow_right (by norm_num) hj64)
      have h2 : n < 2 ^ j :=
        lt_of_lt_of_le h (Nat.pow_le_pow_right (by norm_num) (by omega))
      rw [Nat.testBit_lt_two_pow h1, Nat.testBit_lt_two_pow h2]
      rfl

theorem or_pow63 {n : Nat} (h : n < 2 ^ 63) : 2 ^ 63 ||| n = 2 ^ 63 + n := by
  have := Nat.mul_add_lt_is_or h 1
  simpa [Nat.mul_one] using this.symm

theorem serialize_f80_normal (s e m : Nat) (hs : s < 2) (he : 0 < e)
    (he' : e < 0x7FF) (hm : m < 2 ^ 52) :
    serialize_f80 (s * 2 ^ 63 + e * 2 ^ 52 + m) =
      .ok (beBytes 2 (s * 2 ^ 15 + (e + 16383 - 1023)) ++
           beBytes 8 (2 ^ 63 + m * 2 ^ 11)) := by
  have p52 : (2 : Nat) ^ 52 = 4503599627370496 := by norm_num
  have p63 : (2 : Nat) ^ 63 = 9223372036854775808 := by norm_num
  have p11 : (2 : Nat) ^ 11 = 2048 := by norm_num
  have hlow : e * 2 ^ 52 + m < 2 ^ 63 := by omega
  have hdiv : (e * 2 ^ 52 + m) / 2 ^ 52 = e := by omega
  have hmod : (e * 2 ^ 52 + m) % 2 ^ 52 = m := by omega
  have hb : m * 2 ^ 11 < 2 ^ 63 := by omega
  interval_cases s
  · simp only [Nat.zero_mul, Nat.zero_add, serialize_f80,
      and_pow63_of_lt hlow, Nat.xor_zero]
    rw [if_neg (by omega), Nat.shiftRight_eq_div_pow, hdiv,
      if_neg (by omega), if_neg (by omega),
      Nat.and_pow_two_sub_one_eq_mod, hmod,
      Nat.zero_shiftRight, Nat.shiftLeft_eq, or_pow63 hb]
    simp
  · rw [Nat.one_mul, Nat.add_assoc]
    simp only [serialize_f80, and_pow63_add hlow, xor_pow63_add hlow]
    rw [if_neg (by omega), Nat.shiftRight_eq_div_pow, hdiv,
      if_neg (by omega), if_neg (by omega),
      Nat.and_pow_two_sub_one_eq_mod]
    have hmod2 : (2 ^ 63 + (e * 2 ^ 52 + m)) % 2 ^ 52 = m := by omega
    rw [hmod2, Nat.shiftLeft_eq, or_pow63 hb]
    have hsr : (2 : Nat) ^ 63 >>> 63 = 1 := by
      rw [Nat.shiftRight_eq_div_pow]
      omega
    rw [hsr]

theorem serialize_f80_denormal (s m : Nat) (hs : s < 2) (hm : 0 < m) (hm' : m < 2 ^ 52) :
    serialize_f80 (s * 2 ^ 63 + m) = .error .unsupportedFloatValue := by
  have p52 : (2 : Nat) ^ 52 = 4503599627370496 := by norm_num
  have p63 : (2 : Nat) ^ 63 = 9223372036854775808 := by norm_num
  have hlow : m < 2 ^ 63 := by omega
  have hdiv : m / 2 ^ 52 = 0 := by omega
  interval_cases s
  · simp only [Nat.zero_mul, Nat.zero_add, serialize_f80,
      and_pow63_of_lt hlow, Nat.xor_zero]
    rw [if_neg (by omega), Nat.shiftRight_eq_div_pow, hdiv, if_pos rfl]
  · rw [Nat.one_mul]
    simp only [serialize_f80, and_pow63_add hlow, xor_pow63_add hlow]
    rw [if_neg (by omega), Nat.shiftRight_eq_div_pow, hdiv, if_pos rfl]

theorem serialize_f80_nonfinite (s m : Nat) (hs : s < 2) (hm : m < 2 ^ 52) :
    serialize_f80 (s * 2 ^ 63 + 0x7FF * 2 ^ 52 + m) = .error .unsupportedFloatValue := by
  have p52 : (2 : Nat) ^ 52 = 4503599627370496 := by norm_num
  have p63 : (2 : Nat) ^ 63 = 9223372036854775808 := by norm_num
  have hlow : 0x7FF * 2 ^ 52 + m < 2 ^ 63 := by omega
  have hdiv : (0x7FF * 2 ^ 52 + m) / 2 ^ 52 = 0x7FF := by omega
  interval_cases s
  · simp only [Nat.zero_mul, Nat.zero_add, serialize_f80,
      and_pow63_of_lt hlow, Nat.xor_zero]
    rw [if_neg (by omega), Nat.shiftRight_eq_div_pow, hdiv,
      if_neg (by omega), if_pos rfl]
  · rw [Nat.one_mul, Nat.add_assoc]
    simp only [serialize_f80, and_pow63_add hlow, xor_pow63_add hlow]
    rw [if_neg (by omega), Nat.shiftRight_eq_div_pow, hdiv,
      if_neg (by omega), if_pos rfl]

theorem serialize_f80_at_22050 :
    serialize_f80 f64of22050 = .ok [0x40, 0x0D, 0xAC, 0x44, 0, 0, 0, 0, 0, 0] := by
  have hval : f64of22050 = 0 * 2 ^ 63 + 1037 * 2 ^ 52 + (22050 * 2 ^ 38 - 2 ^ 52) := by
    norm_num [f64of22050]
  rw [hval, serialize_f80_normal 0 1037 (22050 * 2 ^ 38 - 2 ^ 52)
    (by norm_num) (by norm_num) (by norm_num) (by norm_num)]
  rfl

/-! # Claim theorems -/

/-- C9: `serialize_f80` maps 0.0 to ten zero bytes and -0.0 to the byte 0x80
followed by nine zero bytes; for every normal double (sign `s`, biased
exponent `e`, mantissa `m`) it packs sign and the exponent rebiased by adding
16383 to the unbiased exponent into a big-endian 16-bit field, followed by a
64-bit mantissa with an explicit leading 1 bit; every denormal and every
infinity/NaN bit pattern fails with the unsupported-float error. -/
theorem serialize_f80_spec :
    (serialize_f80 0 = .ok (List.replicate 10 0)) ∧
    (serialize_f80 (2 ^ 63) = .ok (0x80 :: List.replicate 9 0)) ∧
    (∀ s e m : Nat, s < 2 → 0 < e → e < 0x7FF → m < 2 ^ 52 →
      serialize_f80 (s * 2 ^ 63 + e * 2 ^ 52 + m) =
        .ok (beBytes 2 (s * 2 ^ 15 + (e + 16383 - 1023)) ++
             beBytes 8 (2 ^ 63 + m * 2 ^ 11))) ∧
    (∀ s m : Nat, s < 2 → 0 < m → m < 2 ^ 52 →
      serialize_f80 (s * 2 ^ 63 + m) = .error .unsupportedFloatValue) ∧
    (∀ s m : Nat, s < 2 → m < 2 ^ 52 →
      serialize_f80 (s * 2 ^ 63 + 0x7FF * 2 ^ 52 + m) = .error .unsupportedFloatValue) :=
  ⟨by rfl, by rfl, serialize_f80_normal, serialize_f80_denormal, serialize_f80_nonfinite⟩

/-- C9 witness: `serialize_f80` on the bit pattern of 22050.0 (sign 0,
biased exponent 1037, mantissa `22050 * 2^38 - 2^52`) produces biased
extended exponent 16397 = 0x400D with the leading mantissa bit set. -/
theorem serialize_f80_witness :
    serialize_f80 (0 * 2 ^ 63 + 1037 * 2 ^ 52 + (22050 * 2 ^ 38 - 2 ^ 52)) =
      .ok (beBytes 2 (0 * 2 ^ 15 + (1037 + 16383 - 1023)) ++
           beBytes 8 (2 ^ 63 + (22050 * 2 ^ 38 - 2 ^ 52) * 2 ^ 11)) :=
  serialize_f80_spec.2.2.1 0 1037 (22050 * 2 ^ 38 - 2 ^ 52)
    (by norm_num) (by norm_num) (by norm_num) (by norm_num)

/-- C8: the COMM chunk `process_pair` builds declares channel count 1,
sample size 16, frame count `len(rawPayload) * 16 // 9`, compression tag
`VAPC`, and the length-prefixed string `VADPCM ~4-1`, with the sample rate
22050 in 80-bit extended form. -/
theorem buildComm_fields (data : List Nat)
    (h : (data.length : Int) * 16 / 9 < 2 ^ 32) :
    buildComm data = .ok ([0, 1] ++ beBytes 4 (data.length * 16 / 9) ++ [0, 16] ++
      [0x40, 0x0D, 0xAC, 0x44, 0, 0, 0, 0, 0, 0] ++
      [0x56, 0x41, 0x50, 0x43] ++ (11 :: vadpcmVerStr)) := by
  have hcast : (data.length : Int) * 16 / 9 = ((data.length * 16 / 9 : Nat) : Int) := by
    rw [Int.ofNat_ediv]
    push_cast
    ring_nf
  have h2 : packUInt 4 ((data.length : Int) * 16 / 9) =
      .ok (beBytes 4 (data.length * 16 / 9)) := by
    unfold packUInt
    rw [if_pos ⟨by rw [hcast]; exact Int.ofNat_nonneg _, by norm_num at h ⊢; omega⟩]
    rw [hcast, Int.toNat_natCast]
  have h1 : packSInt 2 1 = .ok [0, 1] := by rfl
  have h3 : packSInt 2 16 = .ok [0, 16] := by rfl
  have h5 : pstring vadpcmVerStr = .ok (11 :: vadpcmVerStr) := by rfl
  rw [buildComm, h1, h2, h3, serialize_f80_at_22050, h5]
  rfl

/-- C8 witness: a 0x20-byte payload yields frame count `0x20 * 16 / 9 = 56`. -/
theorem buildComm_witness :
    buildComm (List.replicate 32 0) =
      .ok ([0, 1] ++ beBytes 4 ((List.replicate 32 0).length * 16 / 9) ++ [0, 16] ++
        [0x40, 0x0D, 0xAC, 0x44, 0, 0, 0, 0, 0, 0] ++
        [0x56, 0x41, 0x50, 0x43] ++ (11 :: vadpcmVerStr)) :=
  buildComm_fields (List.replicate 32 0) (by norm_num)

theorem ok_bind {α β : Type} (a : α) (f : α → Except Err β) :
    (Except.ok a >>= f) = f a := rfl

theorem packUInt_natCast (w n : Nat) (h : (n : Int) < (256 : Int) ^ w) :
    packUInt w (n : Int) = .ok (beBytes w n) := by
  unfold packUInt
  rw [if_pos ⟨Int.ofNat_nonneg n, h⟩, Int.toNat_natCast]

theorem packSInt_natCast (w n : Nat) (h : (n : Int) < (256 : Int) ^ w / 2) :
    packSInt w (n : Int) = .ok (beBytes w n) := by
  unfold packSInt
  have hw : (0 : Int) ≤ (256 : Int) ^ w / 2 := by positivity
  rw [if_pos ⟨by omega, h⟩]
  have hmod : (n : Int) % (256 : Int) ^ w = (n : Int) :=
    Int.emod_eq_of_lt (Int.ofNat_nonneg n) (by omega)
  rw [hmod, Int.toNat_natCast]

theorem packSInt_natCast_ok {w n : Nat} {y : List Nat}
    (h : packSInt w (n : Int) = .ok y) :
    y = beBytes w n ∧ (n : Int) < (256 : Int) ^ w / 2 := by
  unfold packSInt at h
  split at h
  · next hc =>
    refine ⟨?_, hc.2⟩
    injection h with h'
    have hmod : (n : Int) % (256 : Int) ^ w = (n : Int) := by
      apply Int.emod_eq_of_lt (Int.ofNat_nonneg n)
      have : (0 : Int) ≤ (256 : Int) ^ w / 2 := by positivity
      omega
    rw [hmod, Int.toNat_natCast] at h'
    exact h'.symm
  · exact absurd h (by simp)

theorem pstring_padding_rule (data : List Nat) (h : data.length < 256) :
    pstring data = .ok ((data.length :: data) ++
      (if (1 + data.length) % 2 = 1 then [0] else [])) := by
  unfold pstring
  rw [if_pos h]
  rcases Nat.mod_two_eq_zero_or_one data.length with h2 | h2
  · rw [if_neg (by omega), if_pos (by omega)]
  · rw [if_pos h2, if_neg (by omega)]

theorem ssnd_padding_rule (c : SoundDataChunk)
    (h1 : 0 ≤ c.offset) (h2 : c.offset < (256 : Int) ^ 4)
    (h3 : 0 ≤ c.block_size) (h4 : c.block_size < (256 : Int) ^ 4)
    (h5 : ((8 + c.soundData.length : Nat) : Int) < (256 : Int) ^ 4 / 2) :
    SoundDataChunk.serialize c = .ok
      ([0x53, 0x53, 0x4E, 0x44] ++ beBytes 4 (8 + c.soundData.length) ++
       (beBytes 4 c.offset.toNat ++ beBytes 4 c.block_size.toNat ++ c.soundData) ++
       (if (8 + c.soundData.length) % 2 = 0 then [] else [0])) := by
  have e1 : packUInt 4 c.offset = .ok (beBytes 4 c.offset.toNat) := by
    unfold packUInt
    rw [if_pos ⟨h1, h2⟩]
  have e2 : packUInt 4 c.block_size = .ok (beBytes 4 c.block_size.toNat) := by
    unfold packUInt
    rw [if_pos ⟨h3, h4⟩]
  have hlen : (beBytes 4 c.offset.toNat ++ beBytes 4 c.block_size.toNat ++
      c.soundData).length = 8 + c.soundData.length := by
    simp [beBytes_length]
    omega
  have e3 : packSInt 4 ((8 + c.soundData.length : Nat) : Int) =
      .ok (beBytes 4 (8 + c.soundData.length)) := packSInt_natCast 4 _ h5
  rw [SoundDataChunk.serialize, e1, ok_bind, e2, ok_bind]
  dsimp only
  rw [hlen, e3, ok_bind]
  rfl

theorem commonChunk_no_pad (c : CommonChunk) (out : List Nat)
    (h : CommonChunk.serialize c = .ok out) :
    (out.length : Int) = 8 + fS32 out 4 := by
  unfold CommonChunk.serialize at h
  obtain ⟨a, ha, h⟩ := exceptBind_ok h
  obtain ⟨b, hb, h⟩ := exceptBind_ok h
  obtain ⟨d, hd, h⟩ := exceptBind_ok h
  obtain ⟨e, he, h⟩ := exceptBind_ok h
  obtain ⟨f, hf, h⟩ := exceptBind_ok h
  obtain ⟨hv, hh, h⟩ := exceptBind_ok h
  obtain ⟨hbe, hlt⟩ := packSInt_natCast_ok hh
  subst hbe
  have h3 := Except.ok.inj h
  subst h3
  generalize a ++ b ++ d ++ e ++ c.compression_type ++ f = data at hlt ⊢
  have hlt' : data.length < 2 ^ 31 := by
    norm_num at hlt ⊢
    omega
  rw [fS32, fUF, List.append_assoc, List.drop_left' (by simp),
    List.take_left' (beBytes_length 4 _), beNat_beBytes 4 _ (by norm_num; omega)]
  rw [toSigned, if_pos (by norm_num at hlt' ⊢; omega)]
  simp [beBytes_length]
  ring

theorem vadpcmChunk_no_pad (c : VadpcmCodesChunk) (out : List Nat)
    (h : VadpcmCodesChunk.serialize c = .ok out) :
    (out.length : Int) = 8 + fS32 out 4 := by
  unfold VadpcmCodesChunk.serialize at h
  obtain ⟨ps, hps, h⟩ := exceptBind_ok h
  obtain ⟨v, hv, h⟩ := exceptBind_ok h
  obtain ⟨o, ho, h⟩ := exceptBind_ok h
  obtain ⟨n, hn, h⟩ := exceptBind_ok h
  obtain ⟨table, htable, h⟩ := exceptBind_ok h
  dsimp only at h
  split at h
  · obtain ⟨hv2, hh, h⟩ := exceptBind_ok h
    obtain ⟨hbe, hlt⟩ := packSInt_natCast_ok hh
    subst hbe
    have h3 := Except.ok.inj h
    subst h3
    generalize [0x73, 0x74, 0x6F, 0x63] ++ ps ++ v ++ o ++ n ++ table.flatten = data at hlt ⊢
    have hlt' : data.length < 2 ^ 31 := by
      norm_num at hlt ⊢
      omega
    rw [fS32, fUF, List.append_assoc, List.drop_left' (by simp),
      List.take_left' (beBytes_length 4 _), beNat_beBytes 4 _ (by norm_num; omega)]
    rw [toSigned, if_pos (by norm_num at hlt' ⊢; omega)]
    simp [beBytes_length]
    ring
  · exact absurd h (by simp)

/-- C7 counterexample: a CommonChunk with a 3-byte compression tag has a
23-byte (odd) body, yet its serialisation is exactly 8 header bytes plus the
23 body bytes — no trailing zero pad byte is emitted, and the declared
length field holds the odd 23. -/
theorem commonChunk_odd_body_no_pad :
    CommonChunk.serialize commOdd = .ok commOddBytes ∧
    fS32 commOddBytes 4 = 23 ∧ (23 : Nat) % 2 = 1 ∧
    commOddBytes.length = 8 + 23 :=
  ⟨rfl, rfl, rfl, rfl⟩

/-- C7 (amended): pstrings obey the even-padding rule (one zero pad byte
exactly when length byte + data is an odd total, the length byte counting
only the data); SSND chunk bodies get one uncounted zero pad byte when odd
and none when even; but the COMM and APPL chunk serializers emit header +
body with no pad byte regardless of the body's parity. -/
theorem chunk_padding_rules :
    (∀ data : List Nat, data.length < 256 →
      pstring data = .ok ((data.length :: data) ++
        (if (1 + data.length) % 2 = 1 then [0] else []))) ∧
    (∀ c : SoundDataChunk, 0 ≤ c.offset → c.offset < (256 : Int) ^ 4 →
      0 ≤ c.block_size → c.block_size < (256 : Int) ^ 4 →
      ((8 + c.soundData.length : Nat) : Int) < (256 : Int) ^ 4 / 2 →
      SoundDataChunk.serialize c = .ok
        ([0x53, 0x53, 0x4E, 0x44] ++ beBytes 4 (8 + c.soundData.length) ++
         (beBytes 4 c.offset.toNat ++ beBytes 4 c.block_size.toNat ++ c.soundData) ++
         (if (8 + c.soundData.length) % 2 = 0 then [] else [0]))) ∧
    (∀ (c : CommonChunk) (out : List Nat), CommonChunk.serialize c = .ok out →
      (out.length : Int) = 8 + fS32 out 4) ∧
    (∀ (c : VadpcmCodesChunk) (out : List Nat), VadpcmCodesChunk.serialize c = .ok out →
      (out.length : Int) = 8 + fS32 out 4) :=
  ⟨pstring_padding_rule, ssnd_padding_rule, commonChunk_no_pad, vadpcmChunk_no_pad⟩

/-- C7 witness: the pstring of a 3-byte datum (odd data, even total) gets no
pad, and the SSND chunk of a 1-byte payload (odd 9-byte body) gets exactly
one uncounted pad byte. -/
theorem chunk_padding_rules_witness :
    pstring [7, 8, 9] = .ok (([7, 8, 9].length :: [7, 8, 9]) ++
      (if (1 + [7, 8, 9].length) % 2 = 1 then [0] else [])) ∧
    SoundDataChunk.serialize ⟨0, 0, [5]⟩ = .ok
      ([0x53, 0x53, 0x4E, 0x44] ++ beBytes 4 (8 + [5].length) ++
       (beBytes 4 (0 : Int).toNat ++ beBytes 4 (0 : Int).toNat ++ [5]) ++
       (if (8 + [5].length) % 2 = 0 then [] else [0])) :=
  ⟨chunk_padding_rules.1 [7, 8, 9] (by norm_num),
   chunk_padding_rules.2.1 ⟨0, 0, [5]⟩ (by norm_num) (by norm_num) (by norm_num)
     (by norm_num) (by norm_num)⟩

theorem mapM_packS2_flatten_length {xs : List Int} {ys : List (List Nat)}
    (h : xs.mapM (packSInt 2) = .ok ys) : ys.flatten.length = 2 * xs.length := by
  induction xs generalizing ys with
  | nil =>
    rw [List.mapM_nil] at h
    have h3 := Except.ok.inj h
    subst h3
    rfl
  | cons x xs ih =>
    rw [List.mapM_cons] at h
    obtain ⟨y, hy, h⟩ := exceptBind_ok h
    obtain ⟨ys', hys, h⟩ := exceptBind_ok h
    have h3 := Except.ok.inj h
    subst h3
    have hylen : y.length = 2 := by
      unfold packSInt at hy
      split at hy
      · have h4 := Except.ok.inj hy
        rw [← h4]
        exact beBytes_length 2 _
      · exact absurd hy (by simp)
    simp [List.flatten, hylen, ih hys]
    omega

theorem hUnpackBook_consumes {buf : Buffer} {pos : Int} {bk : HBook} {e : Int}
    {regs : List (Int × RTy)} (h : hUnpackBook buf pos = .ok (bk, e, regs)) :
    e = pos + 8 + 2 * (bookCount bk.order bk.npredictors : Int) ∧
    bk.book.length = bookCount bk.order bk.npredictors := by
  unfold hUnpackBook at h
  obtain ⟨⟨hd, p⟩, hrd, h⟩ := exceptBind_ok h
  obtain ⟨⟨cs, p'⟩, hseq, h⟩ := exceptBind_ok h
  have h3 := Except.ok.inj h
  injection h3 with hA hB
  injection hB with hB1 hB2
  subst hA hB1
  obtain ⟨-, -, -, hp, -⟩ := rdBytes_ok hrd
  obtain ⟨hlen, hp'⟩ := rdS16Seq_ok hseq
  subst hp hp'
  constructor
  · push_cast
    ring
  · exact hlen

set_option maxRecDepth 20000 in
/-- C5 counterexample: for a codebook declaring order 2 and npredictors 4,
the loader accepts a 129-byte coefficient area (reading exactly 128 bytes
and succeeding) and fails a 127-byte area with a truncation error, not a
codebook-size error — the loader performs no `CodebookSizeMismatch`
assertion at all. -/
theorem codebook_loader_no_size_assert :
    hUnpackBook cbBuf129 0 = .ok (⟨2, 4, List.replicate 64 0⟩, 136, []) ∧
    hUnpackBook cbBuf127 0 = .error .truncatedBuffer ∧
    Err.truncatedBuffer ≠ Err.codebookSizeMismatch :=
  ⟨rfl, rfl, by decide⟩

set_option maxRecDepth 20000 in
/-- C5 (amended): the container encoder asserts the coefficient table's byte
length (2 bytes per entry) equals `order * nEntries * 16` before emitting
VADPCMCODES — 64 entries (128 bytes) pass for order 2 / npredictors 4 while
63 or 65 entries fail with the size-mismatch error; the bank loader performs
no such assertion — it always reads exactly `16 * order * npredictors`
coefficient bytes after the 8-byte header by construction. -/
theorem codebook_size_invariant :
    (∀ (c : VadpcmCodesChunk) (out : List Nat), VadpcmCodesChunk.serialize c = .ok out →
      (2 * c.tableData.length : Int) = c.order * c.nEntries * 16) ∧
    ((VadpcmCodesChunk.serialize ⟨2, 4, List.replicate 64 0⟩).isOk = true) ∧
    (VadpcmCodesChunk.serialize ⟨2, 4, List.replicate 63 0⟩ = .error .codebookSizeMismatch) ∧
    (VadpcmCodesChunk.serialize ⟨2, 4, List.replicate 65 0⟩ = .error .codebookSizeMismatch) ∧
    (∀ (buf : Buffer) (pos : Int) (bk : HBook) (e : Int) (regs : List (Int × RTy)),
      hUnpackBook buf pos = .ok (bk, e, regs) →
      e = pos + 8 + 2 * (bookCount bk.order bk.npredictors : Int) ∧
      bk.book.length = bookCount bk.order bk.npredictors) := by
  refine ⟨?_, by rfl, by rfl, by rfl, fun _ _ _ _ _ h => hUnpackBook_consumes h⟩
  intro c out h
  unfold VadpcmCodesChunk.serialize at h
  obtain ⟨ps, hps, h⟩ := exceptBind_ok h
  obtain ⟨v, hv, h⟩ := exceptBind_ok h
  obtain ⟨o, ho, h⟩ := exceptBind_ok h
  obtain ⟨n, hn, h⟩ := exceptBind_ok h
  obtain ⟨table, htable, h⟩ := exceptBind_ok h
  dsimp only at h
  split at h
  · next hc =>
    rw [mapM_packS2_flatten_length htable] at hc
    rw [← hc]
    push_cast
    ring
  · exact absurd h (by simp)

set_option maxRecDepth 20000 in
/-- C5 witness: the encoder-side assertion instantiated at the accepted
64-entry table for order 2 / npredictors 4. -/
theorem codebook_size_invariant_witness :
    (2 * (List.replicate 64 (0 : Int)).length : Int) = 2 * 4 * 16 :=
  codebook_size_invariant.1 ⟨2, 4, List.replicate 64 0⟩
    (exListOf (VadpcmCodesChunk.serialize ⟨2, 4, List.replicate 64 0⟩)) rfl

/-- C6 counterexample: `music.py`'s `ALWaveTable.unpack_from` on a record
whose discriminator is the raw-16-bit value 1 returns a decoded WaveTable
instead of failing. -/
theorem music_wavetable_raw16_returns :
    mUnpackWaveTable bufWT1 0 = .ok ⟨0, 16, 1, 0, none⟩ := rfl

/-- C6 (amended): the offset-graph loader's WaveTable decoder never returns
for a non-zero discriminator — success implies type 0, and the raw-16-bit
discriminator 1 fails with the distinct unsupported-wave-type error (after
reading one u32 of the variant, not the ADPCM fields) whenever that read is
in bounds; `music.py`'s decoder also rejects discriminators other than 0 and
1, but returns a partially decoded WaveTable for discriminator 1 rather
than failing. -/
theorem wavetable_type_discrimination :
    (∀ (buf : Buffer) (pos : Int) (v : HWaveTable) (e : Int) (regs : List (Int × RTy)),
      hUnpackWaveTable buf pos = .ok (v, e, regs) → v.ty = 0) ∧
    (∀ (buf : Buffer) (pos : Int) (hd : List Nat) (p : Int) (bs : List Nat) (q : Int),
      rdBytes buf pos 12 = .ok (hd, p) → fU8 hd 10 = 0 → fU8 hd 11 = 0 →
      fU8 hd 8 = 1 → rdBytes buf p 4 = .ok (bs, q) →
      hUnpackWaveTable buf pos = .error .unsupportedWaveType) ∧
    (∀ (buf : Buffer) (pos : Int) (w : MWaveTable),
      mUnpackWaveTable buf pos = .ok w → w.ty = 0 ∨ w.ty = 1) := by
  refine ⟨?_, ?_, ?_⟩
  · intro buf pos v e regs h
    unfold hUnpackWaveTable at h
    obtain ⟨⟨hd, p⟩, hrd, h⟩ := exceptBind_ok h
    dsimp only at h
    split at h
    · exact absurd h (by simp)
    · split at h
      · exact absurd h (by simp)
      · split at h
        · next h0 =>
          obtain ⟨⟨lb, p'⟩, hrd2, h⟩ := exceptBind_ok h
          dsimp only at h
          have h3 := Except.ok.inj h
          injection h3 with hA hB
          rw [← hA]
          exact h0
        · split at h
          · obtain ⟨⟨lb, p'⟩, hrd2, h⟩ := exceptBind_ok h
            exact absurd h (by simp)
          · exact absurd h (by simp)
  · intro buf pos hd p bs q hrd h10 h11 h8 hrd2
    unfold hUnpackWaveTable
    rw [hrd, ok_bind]
    dsimp only
    rw [if_neg (by simp [h10]), if_neg (by simp [h11]), if_neg (by simp [h8]), if_pos h8]
    rw [hrd2, ok_bind]
  · intro buf pos w h
    unfold mUnpackWaveTable at h
    obtain ⟨hd, hrd, h⟩ := exceptBind_ok h
    split at h
    · next h0 =>
      obtain ⟨lb, hrd2, h⟩ := exceptBind_ok h
      obtain ⟨u, hu, h⟩ := exceptBind_ok h
      obtain ⟨bk, hbk, h⟩ := exceptBind_ok h
      have h3 := Except.ok.inj h
      left
      rw [← h3]
      exact h0
    · split at h
      · next h1 =>
        obtain ⟨bs, hrd2, h⟩ := exceptBind_ok h
        have h3 := Except.ok.inj h
        right
        rw [← h3]
        exact h1
      · exact absurd h (by simp)

/-- C6 witness: the loader fails with the unsupported-wave-type error on the
concrete raw-16-bit WaveTable record. -/
theorem wavetable_type_discrimination_witness :
    hUnpackWaveTable bufWT1 0 = .error .unsupportedWaveType :=
  wavetable_type_discrimination.2.1 bufWT1 0
    [0, 0, 0, 0, 0, 0, 0, 16, 1, 0, 0, 0] 12 [0, 0, 0, 0] 16
    rfl rfl rfl rfl rfl

/-- C2: `Reader.register` on an offset whose first matching slot has the
same type returns the pointer to the existing slot unchanged — no new slot,
`changed` untouched; on a slot of a different type it fails with the
conflicting-offset-type error. -/
theorem register_idempotent_or_conflict (st : RState) (o : Int) (ty : RTy) (it : RItem)
    (hfind : st.items.find? (fun x => x.offset == o) = some it) :
    (it.ty = ty → Reader.register st o ty = .ok (st, o)) ∧
    (it.ty ≠ ty → Reader.register st o ty = .error .conflictingOffsetType) := by
  constructor
  · intro h
    unfold Reader.register
    rw [hfind]
    dsimp only
    rw [if_pos h]
  · intro h
    unfold Reader.register
    rw [hfind]
    dsimp only
    rw [if_neg h]

/-- C2 witness: registering offset 8 again as a Bank on a state already
holding a Bank slot at 8 returns that state unchanged; registering it as an
Instrument fails with the conflict error. -/
theorem register_idempotent_or_conflict_witness :
    Reader.register stW 8 RTy.bank = .ok (stW, 8) ∧
    Reader.register stW 8 RTy.instrument = .error .conflictingOffsetType :=
  ⟨(register_idempotent_or_conflict stW 8 RTy.bank { offset := 8, ty := RTy.bank } rfl).1 rfl,
   (register_idempotent_or_conflict stW 8 RTy.instrument
      { offset := 8, ty := RTy.bank } rfl).2 (by decide)⟩

set_option maxRecDepth 20000 in
/-- C4: on the 20-byte buffer `buf20` the load succeeds after two passes and
the resolve log shows every registered offset decoded twice — offsets 0 and
8 are each decoded in both passes, because `if item.value is not None: pass`
in `Reader.resolve` is a no-op and never skips already-decoded items. -/
theorem resolve_redecodes_every_pass :
    read_file buf20 = some (.ok rd20) ∧ rd20.log = [0, 8, 0, 8] ∧
    rd20.log.count 0 = 2 :=
  ⟨rfl, rfl, rfl⟩

/-! # Reader machinery: register, registerAll, decodeItem -/

theorem register_ok_cases {st : RState} {o : Int} {ty : RTy} {st' : RState} {ptr : Int}
    (h : Reader.register st o ty = .ok (st', ptr)) :
    (st' = st ∧ (o, ty) ∈ sigs st) ∨
    (st'.items = st.items ++ [{ offset := o, ty := ty }] ∧ st'.changed = true ∧
     st'.log = st.log ∧ ∀ p ∈ sigs st, p.1 ≠ o) := by
  unfold Reader.register at h
  cases hf : st.items.find? (fun it => it.offset == o) with
  | some it =>
    rw [hf] at h
    dsimp only at h
    split at h
    · next hty =>
      left
      have h2 := Except.ok.inj h
      injection h2 with hA hB
      refine ⟨hA.symm, ?_⟩
      have hmem := List.mem_of_find?_eq_some hf
      have hoff : it.offset = o := by simpa using List.find?_some hf
      exact List.mem_map.mpr ⟨it, hmem, by simp [sigOf, hoff, hty]⟩
    · exact absurd h (by simp)
  | none =>
    rw [hf] at h
    dsimp only at h
    right
    have h2 := Except.ok.inj h
    injection h2 with hA hB
    refine ⟨by rw [← hA], by rw [← hA], by rw [← hA], ?_⟩
    intro p hp
    obtain ⟨jt, hjt, hsig⟩ := List.mem_map.mp hp
    have hnp := List.find?_eq_none.mp hf jt hjt
    intro hcon
    apply hnp
    have hj : jt.offset = o := by
      rw [show p.1 = jt.offset from by rw [← hsig]; rfl] at hcon
      exact hcon
    simp [hj]

theorem registerAll_props {regs : List (Int × RTy)} :
    ∀ {st st' : RState}, registerAll st regs = .ok st' →
      st.items <+: st'.items ∧ st'.log = st.log ∧
      (∀ p ∈ regs, RegPresent st' p) ∧
      (st'.changed = true → st.changed = true ∨ st.items.length < st'.items.length) ∧
      ((sigs st).Pairwise (fun a b => a.1 ≠ b.1) →
        (sigs st').Pairwise (fun a b => a.1 ≠ b.1)) ∧
      ((∀ p ∈ regs, p.2 ≠ RTy.bankFile) → bfCount st' = bfCount st) := by
  induction regs with
  | nil =>
    intro st st' h
    have h2 : st = st' := Except.ok.inj h
    subst h2
    exact ⟨List.prefix_refl _, rfl, by simp, fun hc => Or.inl hc, id, fun _ => rfl⟩
  | cons q rest ih =>
    obtain ⟨o, ty⟩ := q
    intro st st' h
    unfold registerAll at h
    obtain ⟨⟨st1, ptr⟩, hreg, h⟩ := exceptBind_ok h
    obtain ⟨hpre, hlog, hpres, hchg, hdis, hbf⟩ := ih h
    rcases register_ok_cases hreg with ⟨rfl, hmem⟩ | ⟨hitems, hchg1, hlog1, hfresh⟩
    · refine ⟨hpre, hlog, ?_, hchg, hdis, fun hq => hbf (fun p hp => hq p (by simp [hp]))⟩
      intro p hp
      rcases List.mem_cons.mp hp with rfl | hp'
      · exact (hpre.map sigOf).subset hmem
      · exact hpres p hp'
    · have hsig1 : sigs st1 = sigs st ++ [(o, ty)] := by
        unfold sigs
        rw [hitems, List.map_append]
        rfl
      have hpre0 : st.items <+: st1.items := hitems ▸ List.prefix_append st.items _
      refine ⟨hpre0.trans hpre, by rw [hlog, hlog1], ?_, ?_, ?_, ?_⟩
      · intro p hp
        rcases List.mem_cons.mp hp with rfl | hp'
        · apply (hpre.map sigOf).subset
          show (o, ty) ∈ sigs st1
          rw [hsig1]
          exact List.mem_append_right _ (by simp)
        · exact hpres p hp'
      · intro _
        right
        have l1 : st.items.length < st1.items.length := by
          rw [hitems]
          simp
        exact lt_of_lt_of_le l1 hpre.length_le
      · intro hd
        apply hdis
        rw [hsig1, List.pairwise_append]
        refine ⟨hd, by simp, ?_⟩
        intro a ha b hb
        rw [List.mem_singleton.mp hb]
        exact hfresh a ha
      · intro hq
        rw [hbf (fun p hp => hq p (by simp [hp]))]
        unfold bfCount
        rw [hsig1, List.filter_append]
        have hflt : List.filter (fun p => p.2 == RTy.bankFile) [((o : Int), ty)] = [] := by
          have hne : ty ≠ RTy.bankFile := hq (o, ty) (by simp)
          simp [hne]
        rw [hflt, List.append_nil]

theorem map_sigOf_set {l : List RItem} {i : Nat} {x y : RItem}
    (hy : l[i]? = some y) (hsig : sigOf x = sigOf y) :
    (l.set i x).map sigOf = l.map sigOf := by
  have hi : i < l.length := by
    by_contra hni
    rw [List.getElem?_eq_none (Nat.le_of_not_lt hni)] at hy
    exact Option.noConfusion hy
  apply List.ext_getElem?
  intro j
  rw [List.getElem?_map, List.getElem?_map]
  rcases eq_or_ne i j with rfl | hij
  · rw [List.getElem?_set_self hi, hy]
    simp [hsig]
  · rw [List.getElem?_set_ne hij]

theorem exceptMap_ok {α β : Type} {x : Except Err α} {f : α → β} {b : β}
    (h : x.map f = .ok b) : ∃ a, x = .ok a ∧ f a = b := by
  cases x with
  | error e => simp [Except.map] at h
  | ok a =>
    refine ⟨a, rfl, ?_⟩
    simpa [Except.map] using h

theorem rdBytes_pos_lt {buf : Buffer} {pos : Int} {n : Nat} {bs : List Nat} {p : Int}
    (h : rdBytes buf pos n = .ok (bs, p)) (hn : 1 ≤ n) :
    0 ≤ pos ∧ pos < (buf.length : Int) := by
  obtain ⟨h0, hle, -, -, -⟩ := rdBytes_ok h
  constructor
  · exact h0
  · omega

theorem unpackPure_ok_bounds {ty : RTy} {buf : Buffer} {pos : Int} {v : RVal} {e : Int}
    {regs : List (Int × RTy)} (h : unpackPure ty buf pos = .ok (v, e, regs)) :
    0 ≤ pos ∧ pos < (buf.length : Int) := by
  cases ty with
  | envelope =>
    obtain ⟨⟨x, e2, r2⟩, hx, -⟩ := exceptMap_ok h
    unfold hUnpackEnvelope at hx
    obtain ⟨⟨hd, p⟩, hrd, -⟩ := exceptBind_ok hx
    exact rdBytes_pos_lt hrd (by norm_num)
  | keyMap =>
    obtain ⟨⟨x, e2, r2⟩, hx, -⟩ := exceptMap_ok h
    unfold hUnpackKeyMap at hx
    obtain ⟨⟨hd, p⟩, hrd, -⟩ := exceptBind_ok hx
    exact rdBytes_pos_lt hrd (by norm_num)
  | adpcmBook =>
    obtain ⟨⟨x, e2, r2⟩, hx, -⟩ := exceptMap_ok h
    unfold hUnpackBook at hx
    obtain ⟨⟨hd, p⟩, hrd, -⟩ := exceptBind_ok hx
    exact rdBytes_pos_lt hrd (by norm_num)
  | adpcmLoop =>
    obtain ⟨⟨x, e2, r2⟩, hx, -⟩ := exceptMap_ok h
    unfold hUnpackLoop at hx
    obtain ⟨⟨hd, p⟩, hrd, -⟩ := exceptBind_ok hx
    exact rdBytes_pos_lt hrd (by norm_num)
  | waveTable =>
    obtain ⟨⟨x, e2, r2⟩, hx, -⟩ := exceptMap_ok h
    unfold hUnpackWaveTable at hx
    obtain ⟨⟨hd, p⟩, hrd, -⟩ := exceptBind_ok hx
    exact rdBytes_pos_lt hrd (by norm_num)
  | sound =>
    obtain ⟨⟨x, e2, r2⟩, hx, -⟩ := exceptMap_ok h
    unfold hUnpackSound at hx
    obtain ⟨⟨hd, p⟩, hrd, -⟩ := exceptBind_ok hx
    exact rdBytes_pos_lt hrd (by norm_num)
  | instrument =>
    obtain ⟨⟨x, e2, r2⟩, hx, -⟩ := exceptMap_ok h
    unfold hUnpackInstrument at hx
    obtain ⟨⟨hd, p⟩, hrd, -⟩ := exceptBind_ok hx
    exact rdBytes_pos_lt hrd (by norm_num)
  | bank =>
    obtain ⟨⟨x, e2, r2⟩, hx, -⟩ := exceptMap_ok h
    unfold hUnpackBank at hx
    obtain ⟨⟨hd, p⟩, hrd, -⟩ := exceptBind_ok hx
    exact rdBytes_pos_lt hrd (by norm_num)
  | bankFile =>
    obtain ⟨⟨x, e2, r2⟩, hx, -⟩ := exceptMap_ok h
    unfold hUnpackBankFile at hx
    obtain ⟨⟨hd, p⟩, hrd, -⟩ := exceptBind_ok hx
    exact rdBytes_pos_lt hrd (by norm_num)

theorem unpackPure_regs_ne_bankFile {ty : RTy} {buf : Buffer} {pos : Int} {v : RVal}
    {e : Int} {regs : List (Int × RTy)} (h : unpackPure ty buf pos = .ok (v, e, regs)) :
    ∀ q ∈ regs, q.2 ≠ RTy.bankFile := by
  cases ty with
  | envelope =>
    obtain ⟨⟨x, e2, r2⟩, hx, hfr⟩ := exceptMap_ok h
    injection hfr with h1 h2
    injection h2 with h3 h4
    subst h4
    unfold hUnpackEnvelope at hx
    obtain ⟨⟨hd, p⟩, hrd, hx⟩ := exceptBind_ok hx
    have h5 := Except.ok.inj hx
    injection h5 with hA hB
    injection hB with hB1 hB2
    rw [← hB2]
    simp
  | keyMap =>
    obtain ⟨⟨x, e2, r2⟩, hx, hfr⟩ := exceptMap_ok h
    injection hfr with h1 h2
    injection h2 with h3 h4
    subst h4
    unfold hUnpackKeyMap at hx
    obtain ⟨⟨hd, p⟩, hrd, hx⟩ := exceptBind_ok hx
    have h5 := Except.ok.inj hx
    injection h5 with hA hB
    injection hB with hB1 hB2
    rw [← hB2]
    simp
  | adpcmBook =>
    obtain ⟨⟨x, e2, r2⟩, hx, hfr⟩ := exceptMap_ok h
    injection hfr with h1 h2
    injection h2 with h3 h4
    subst h4
    unfold hUnpackBook at hx
    obtain ⟨⟨hd, p⟩, hrd, hx⟩ := exceptBind_ok hx
    obtain ⟨⟨cs, p2⟩, hseq, hx⟩ := exceptBind_ok hx
    have h5 := Except.ok.inj hx
    injection h5 with hA hB
    injection hB with hB1 hB2
    rw [← hB2]
    simp
  | adpcmLoop =>
    obtain ⟨⟨x, e2, r2⟩, hx, hfr⟩ := exceptMap_ok h
    injection hfr with h1 h2
    injection h2 with h3 h4
    subst h4
    unfold hUnpackLoop at hx
    obtain ⟨⟨hd, p⟩, hrd, hx⟩ := exceptBind_ok hx
    obtain ⟨⟨stt, p2⟩, hrd2, hx⟩ := exceptBind_ok hx
    have h5 := Except.ok.inj hx
    injection h5 with hA hB
    injection hB with hB1 hB2
    rw [← hB2]
    simp
  | waveTable =>
    obtain ⟨⟨x, e2, r2⟩, hx, hfr⟩ := exceptMap_ok h
    injection hfr with h1 h2
    injection h2 with h3 h4
    subst h4
    unfold hUnpackWaveTable at hx
    obtain ⟨⟨hd, p⟩, hrd, hx⟩ := exceptBind_ok hx
    dsimp only at hx
    split at hx
    · exact absurd hx (by simp)
    · split at hx
      · exact absurd hx (by simp)
      · split at hx
        · obtain ⟨⟨lb, p2⟩, hrd2, hx⟩ := exceptBind_ok hx
          dsimp only at hx
          have h5 := Except.ok.inj hx
          injection h5 with hA hB
          injection hB with hB1 hB2
          rw [← hB2]
          intro q hq
          rcases List.mem_append.mp hq with hqa | hqb
          · split at hqa
            · rw [List.mem_singleton.mp hqa]
              simp
            · simp at hqa
          · split at hqb
            · rw [List.mem_singleton.mp hqb]
              simp
            · simp at hqb
        · split at hx
          · obtain ⟨u, hu, hx⟩ := exceptBind_ok hx
            exact absurd hx (by simp)
          · exact absurd hx (by simp)
  | sound =>
    obtain ⟨⟨x, e2, r2⟩, hx, hfr⟩ := exceptMap_ok h
    injection hfr with h1 h2
    injection h2 with h3 h4
    subst h4
    unfold hUnpackSound at hx
    obtain ⟨⟨hd, p⟩, hrd, hx⟩ := exceptBind_ok hx
    have h5 := Except.ok.inj hx
    injection h5 with hA hB
    injection hB with hB1 hB2
    rw [← hB2]
    intro q hq
    simp only [List.mem_cons, List.not_mem_nil, or_false] at hq
    rcases hq with rfl | rfl | rfl <;> simp
  | instrument =>
    obtain ⟨⟨x, e2, r2⟩, hx, hfr⟩ := exceptMap_ok h
    injection hfr with h1 h2
    injection h2 with h3 h4
    subst h4
    unfold hUnpackInstrument at hx
    obtain ⟨⟨hd, p⟩, hrd, hx⟩ := exceptBind_ok hx
    obtain ⟨n, hn, hx⟩ := exceptBind_ok hx
    obtain ⟨⟨ab, p2⟩, hrd2, hx⟩ := exceptBind_ok hx
    have h5 := Except.ok.inj hx
    injection h5 with hA hB
    injection hB with hB1 hB2
    rw [← hB2]
    intro q hq
    obtain ⟨a, -, rfl⟩ := List.mem_map.mp hq
    simp
  | bank =>
    obtain ⟨⟨x, e2, r2⟩, hx, hfr⟩ := exceptMap_ok h
    injection hfr with h1 h2
    injection h2 with h3 h4
    subst h4
    unfold hUnpackBank at hx
    obtain ⟨⟨hd, p⟩, hrd, hx⟩ := exceptBind_ok hx
    obtain ⟨n, hn, hx⟩ := exceptBind_ok hx
    obtain ⟨⟨ab, p2⟩, hrd2, hx⟩ := exceptBind_ok hx
    have h5 := Except.ok.inj hx
    injection h5 with hA hB
    injection hB with hB1 hB2
    rw [← hB2]
    intro q hq
    rcases List.mem_append.mp hq with hqa | hqb
    · split at hqa
      · rw [List.mem_singleton.mp hqa]
        simp
      · simp at hqa
    · obtain ⟨a, -, rfl⟩ := List.mem_map.mp hqb
      simp
  | bankFile =>
    obtain ⟨⟨x, e2, r2⟩, hx, hfr⟩ := exceptMap_ok h
    injection hfr with h1 h2
    injection h2 with h3 h4
    subst h4
    unfold hUnpackBankFile at hx
    obtain ⟨⟨hd, p⟩, hrd, hx⟩ := exceptBind_ok hx
    obtain ⟨n, hn, hx⟩ := exceptBind_ok hx
    obtain ⟨⟨ab, p2⟩, hrd2, hx⟩ := exceptBind_ok hx
    have h5 := Except.ok.inj hx
    injection h5 with hA hB
    injection hB with hB1 hB2
    rw [← hB2]
    intro q hq
    obtain ⟨a, -, rfl⟩ := List.mem_map.mp hq
    simp

theorem decodeItem_props {buf : Buffer} {st : RState} {i : Nat} {st' : RState}
    (h : decodeItem buf st i = .ok st') :
    ∃ it v e regs st1, st.items[i]? = some it ∧
      unpackPure it.ty buf it.offset = .ok (v, e, regs) ∧
      registerAll st regs = .ok st1 ∧
      st'.items = st1.items.set i { it with value := some v, size := e - it.offset } ∧
      st'.changed = st1.changed ∧ st'.log = st1.log ++ [it.offset] := by
  unfold decodeItem at h
  cases hit : st.items[i]? with
  | none =>
    rw [hit] at h
    exact absurd h (by simp)
  | some it =>
    rw [hit] at h
    obtain ⟨⟨v, e, regs⟩, hup, h⟩ := exceptBind_ok h
    dsimp only at h
    obtain ⟨st1, hra, h⟩ := exceptBind_ok h
    have h2 := Except.ok.inj h
    exact ⟨it, v, e, regs, st1, rfl, hup, hra, by rw [← h2], by rw [← h2], by rw [← h2]⟩

theorem decodeItem_effects {buf : Buffer} {st : RState} {i : Nat} {st' : RState}
    (h : decodeItem buf st i = .ok st') :
    (sigs st <+: sigs st') ∧
    (∀ j, j < i → st'.items[j]? = st.items[j]?) ∧
    ((sigs st).Pairwise (fun a b => a.1 ≠ b.1) →
      (sigs st').Pairwise (fun a b => a.1 ≠ b.1)) ∧
    (st'.changed = true → st.changed = true ∨ st.items.length < st'.items.length) ∧
    bfCount st' = bfCount st ∧
    st.items.length ≤ st'.items.length ∧
    i < st.items.length ∧
    (∃ it2, st'.items[i]? = some it2 ∧ ProcessedIn buf st' it2 ∧
      0 ≤ it2.offset ∧ it2.offset < (buf.length : Int)) := by
  obtain ⟨it, v, e, regs, st1, hit, hup, hra, hitems, hchg, hlog⟩ := decodeItem_props h
  obtain ⟨hpre, hlog1, hpres, hchg1, hdis1, hbf1⟩ := registerAll_props hra
  have hilen : i < st.items.length := by
    by_contra hni
    rw [List.getElem?_eq_none (Nat.le_of_not_lt hni)] at hit
    exact Option.noConfusion hit
  have hpre2 := hpre
  obtain ⟨t, ht⟩ := hpre2
  have hget1 : st1.items[i]? = some it := by
    rw [← ht, List.getElem?_append_left hilen]
    exact hit
  have hsigeq : st'.items.map sigOf = st1.items.map sigOf := by
    rw [hitems]
    exact map_sigOf_set hget1 rfl
  have hsigeq' : sigs st' = sigs st1 := hsigeq
  have hi1len : i < st1.items.length := by
    have := hpre.length_le
    omega
  have hbounds := unpackPure_ok_bounds hup
  refine ⟨?_, ?_, ?_, ?_, ?_, ?_, hilen, ?_⟩
  · rw [hsigeq']
    exact hpre.map sigOf
  · intro j hj
    rw [hitems, List.getElem?_set_ne (by omega), ← ht,
      List.getElem?_append_left (by omega)]
  · intro hd
    rw [hsigeq']
    exact hdis1 hd
  · intro hc
    rw [hchg] at hc
    rcases hchg1 hc with hcl | hcr
    · exact Or.inl hcl
    · right
      have h1 : st'.items.length = st1.items.length := by
        rw [hitems, List.length_set]
      omega
  · have : bfCount st' = bfCount st1 := by
      unfold bfCount
      rw [hsigeq']
    rw [this]
    exact hbf1 (unpackPure_regs_ne_bankFile hup)
  · have h1 : st'.items.length = st1.items.length := by
      rw [hitems, List.length_set]
    rw [h1]
    exact hpre.length_le
  · refine ⟨{ it with value := some v, size := e - it.offset }, ?_, ?_, hbounds.1, hbounds.2⟩
    · rw [hitems, List.getElem?_set_self hi1len]
    · refine ⟨v, e, regs, hup, rfl, rfl, ?_⟩
      intro p hp
      show p ∈ sigs st'
      rw [hsigeq']
      exact hpres p hp

theorem processedIn_mono {buf : Buffer} {st st' : RState} {it : RItem}
    (hsub : sigs st <+: sigs st') (h : ProcessedIn buf st it) : ProcessedIn buf st' it := by
  obtain ⟨v, e, regs, h1, h2, h3, h4⟩ := h
  exact ⟨v, e, regs, h1, h2, h3, fun p hp => hsub.subset (h4 p hp)⟩

theorem processedIn_bounds {buf : Buffer} {st : RState} {it : RItem}
    (h : ProcessedIn buf st it) : 0 ≤ it.offset ∧ it.offset < (buf.length : Int) := by
  obtain ⟨v, e, regs, h1, -, -, -⟩ := h
  exact unpackPure_ok_bounds h1

theorem sig_card_bound {l : List (Int × RTy)} {n : Nat}
    (hd : l.Pairwise (fun a b => a.1 ≠ b.1))
    (hb : ∀ p ∈ l, 0 ≤ p.1 ∧ p.1 < (n : Int)) : l.length ≤ n := by
  classical
  have hnodup : (l.map Prod.fst).Nodup := List.pairwise_map.mpr hd
  have hsub : (l.map Prod.fst).toFinset ⊆ Finset.Ico (0 : Int) n := by
    intro x hx
    rw [List.mem_toFinset] at hx
    obtain ⟨p, hp, rfl⟩ := List.mem_map.mp hx
    rw [Finset.mem_Ico]
    exact hb p hp
  have h1 : (l.map Prod.fst).toFinset.card = l.length := by
    rw [List.toFinset_card_of_nodup hnodup, List.length_map]
  have h2 := Finset.card_le_card hsub
  rw [h1, Int.card_Ico] at h2
  simpa using h2

theorem processed_length_bound {buf : Buffer} {st : RState} {i : Nat}
    (hd : (sigs st).Pairwise (fun a b => a.1 ≠ b.1))
    (hi : i ≤ st.items.length)
    (hp : ∀ j, j < i → ∀ it, st.items[j]? = some it → ProcessedIn buf st it) :
    i ≤ buf.length := by
  have hslen : (sigs st).length = st.items.length := by
    unfold sigs
    rw [List.length_map]
  have hlen : ((sigs st).take i).length = i := by
    rw [List.length_take]
    omega
  have hd2 : ((sigs st).take i).Pairwise (fun a b => a.1 ≠ b.1) :=
    hd.sublist (List.take_sublist i _)
  have hb : ∀ p ∈ (sigs st).take i, 0 ≤ p.1 ∧ p.1 < (buf.length : Int) := by
    intro p hpmem
    obtain ⟨j, hget⟩ := List.mem_iff_getElem?.mp hpmem
    have hj : j < i := by
      by_contra hnj
      rw [List.getElem?_eq_none (by omega)] at hget
      exact Option.noConfusion hget
    rw [List.getElem?_take_of_lt hj] at hget
    unfold sigs at hget
    rw [List.getElem?_map] at hget
    obtain ⟨it, hit, hsig⟩ := Option.map_eq_some'.mp hget
    have hproc := hp j hj it hit
    have hbd := processedIn_bounds hproc
    rw [← hsig]
    exact hbd
  have := sig_card_bound hd2 hb
  omega

theorem passFrom_master (buf : Buffer) :
    ∀ (fuel : Nat) (i : Nat) (st : RState),
      (sigs st).Pairwise (fun a b => a.1 ≠ b.1) →
      i ≤ st.items.length →
      (∀ j, j < i → ∀ it, st.items[j]? = some it → ProcessedIn buf st it) →
      buf.length + 2 ≤ fuel + i →
      passFrom buf fuel st i ≠ none ∧
      ∀ st', passFrom buf fuel st i = some (.ok st') →
        (sigs st <+: sigs st') ∧
        (sigs st').Pairwise (fun a b => a.1 ≠ b.1) ∧
        (∀ it ∈ st'.items, ProcessedIn buf st' it) ∧
        (st'.changed = true → st.changed = true ∨ st.items.length < st'.items.length) ∧
        bfCount st' = bfCount st ∧
        st'.items.length ≤ buf.length := by
  intro fuel
  induction fuel with
  | zero =>
    intro i st hd hi hp hfuel
    have hib := processed_length_bound hd hi hp
    unfold passFrom
    split
    · next hlt => exact absurd hfuel (by omega)
    · next hge =>
      constructor
      · simp
      · intro st' h
        have h2 : st = st' := Except.ok.inj (Option.some.inj h)
        subst h2
        have hge' : st.items.length ≤ i := Nat.le_of_not_lt hge
        refine ⟨List.prefix_refl _, hd, ?_, fun hc => Or.inl hc, rfl, ?_⟩
        · intro it hit
          obtain ⟨j, hjget⟩ := List.mem_iff_getElem?.mp hit
          have hj : j < st.items.length := by
            by_contra hnj
            rw [List.getElem?_eq_none (by omega)] at hjget
            exact Option.noConfusion hjget
          exact hp j (by omega) it hjget
        · exact processed_length_bound hd (Nat.le_refl _)
            (fun j hj it hit => hp j (by omega) it hit)
  | succ fuel ih =>
    intro i st hd hi hp hfuel
    unfold passFrom
    split
    · next hlt =>
      cases hdec : decodeItem buf st i with
      | error er =>
        constructor
        · simp
        · intro st' h
          simp at h
      | ok st2 =>
        obtain ⟨hsub, hgetlt, hdis, hchg, hbf, hlenle, hilen,
          it2, hit2, hproc2, hb0, hb1⟩ := decodeItem_effects hdec
        have hd2 : (sigs st2).Pairwise (fun a b => a.1 ≠ b.1) := hdis hd
        have hi2 : i + 1 ≤ st2.items.length := by omega
        have hp2 : ∀ j, j < i + 1 → ∀ it, st2.items[j]? = some it → ProcessedIn buf st2 it := by
          intro j hj it hit
          rcases Nat.lt_or_ge j i with hji | hji
          · rw [hgetlt j hji] at hit
            exact processedIn_mono hsub (hp j hji it hit)
          · have hj_eq : j = i := by omega
            subst hj_eq
            rw [hit2] at hit
            have h4 := Option.some.inj hit
            rw [← h4]
            exact hproc2
        have hfuel2 : buf.length + 2 ≤ fuel + (i + 1) := by omega
        obtain ⟨hnn, hok⟩ := ih (i + 1) st2 hd2 hi2 hp2 hfuel2
        constructor
        · exact hnn
        · intro st' h
          obtain ⟨hsub3, hd3, hall3, hchg3, hbf3, hlen3⟩ := hok st' h
          refine ⟨hsub.trans hsub3, hd3, hall3, ?_, by rw [hbf3, hbf], hlen3⟩
          intro hc
          have h5 : st2.items.length ≤ st'.items.length := by
            have h6 := hsub3.length_le
            simpa [sigs] using h6
          rcases hchg3 hc with hcl | hcr
          · rcases hchg hcl with hcll | hclr
            · exact Or.inl hcll
            · right
              omega
          · right
            omega
    · next hge =>
      constructor
      · simp
      · intro st' h
        have h2 : st = st' := Except.ok.inj (Option.some.inj h)
        subst h2
        have hge' : st.items.length ≤ i := Nat.le_of_not_lt hge
        refine ⟨List.prefix_refl _, hd, ?_, fun hc => Or.inl hc, rfl, ?_⟩
        · intro it hit
          obtain ⟨j, hjget⟩ := List.mem_iff_getElem?.mp hit
          have hj : j < st.items.length := by
            by_contra hnj
            rw [List.getElem?_eq_none (by omega)] at hjget
            exact Option.noConfusion hjget
          exact hp j (by omega) it hjget
        · exact processed_length_bound hd (Nat.le_refl _)
            (fun j hj it hit => hp j (by omega) it hit)

theorem resolveFuel_unchanged {buf : Buffer} {st : RState} (fuel : Nat)
    (h : st.changed = false) : resolveFuel buf fuel st = some (.ok st) := by
  cases fuel with
  | zero =>
    unfold resolveFuel
    rw [h]
    simp
  | succ fuel =>
    unfold resolveFuel
    rw [h]
    simp

theorem resolveFuel_master (buf : Buffer) :
    ∀ (fuel : Nat) (st : RState),
      (sigs st).Pairwise (fun a b => a.1 ≠ b.1) →
      st.items.length ≤ buf.length + 1 →
      buf.length + 2 ≤ fuel + st.items.length →
      resolveFuel buf fuel st ≠ none ∧
      ∀ st', resolveFuel buf fuel st = some (.ok st') →
        (sigs st <+: sigs st') ∧
        (sigs st').Pairwise (fun a b => a.1 ≠ b.1) ∧
        st'.changed = false ∧
        (st.changed = true →
          (∀ it ∈ st'.items, ProcessedIn buf st' it) ∧ st'.items.length ≤ buf.length) ∧
        bfCount st' = bfCount st := by
  intro fuel
  induction fuel with
  | zero =>
    intro st hd hlb hfuel
    cases hc : st.changed with
    | true =>
      exact absurd hfuel (by omega)
    | false =>
      rw [resolveFuel_unchanged 0 hc]
      constructor
      · simp
      · intro st' h
        have h2 : st = st' := Except.ok.inj (Option.some.inj h)
        subst h2
        exact ⟨List.prefix_refl _, hd, hc, fun ht => False.elim (by simp [hc] at ht), rfl⟩
  | succ fuel ih =>
    intro st hd hlb hfuel
    cases hc : st.changed with
    | false =>
      rw [resolveFuel_unchanged (fuel + 1) hc]
      constructor
      · simp
      · intro st' h
        have h2 : st = st' := Except.ok.inj (Option.some.inj h)
        subst h2
        exact ⟨List.prefix_refl _, hd, hc, fun ht => False.elim (by simp [hc] at ht), rfl⟩
    | true =>
      unfold resolveFuel
      rw [hc]
      simp only [if_true]
      have hd0 : (sigs { st with changed := false }).Pairwise (fun a b => a.1 ≠ b.1) := hd
      obtain ⟨hnn, hpost⟩ := passFrom_master buf (buf.length + 2) 0 { st with changed := false }
        hd0 (Nat.zero_le _) (fun j hj => absurd hj (by omega)) (by omega)
      cases hpass : passFrom buf (buf.length + 2) { st with changed := false } 0 with
      | none => exact absurd hpass hnn
      | some r =>
        cases r with
        | error e =>
          dsimp only
          constructor
          · simp
          · intro st' h
            simp at h
        | ok st2 =>
          dsimp only
          obtain ⟨hsub, hd2, hall, hchg2, hbf2, hlen2⟩ := hpost st2 hpass
          cases hc2 : st2.changed with
          | false =>
            rw [resolveFuel_unchanged fuel hc2]
            constructor
            · simp
            · intro st' h
              have h2 : st2 = st' := Except.ok.inj (Option.some.inj h)
              subst h2
              exact ⟨hsub, hd2, hc2, fun _ => ⟨hall, hlen2⟩, hbf2⟩
          | true =>
            have hgrow : st.items.length < st2.items.length := by
              rcases hchg2 hc2 with hfalse | hg
              · exact absurd hfalse (by simp)
              · exact hg
            obtain ⟨hnn3, hok3⟩ := ih st2 hd2 (by omega) (by omega)
            constructor
            · exact hnn3
            · intro st' h
              obtain ⟨hsub3, hd3, hcf3, hpr3, hbf3⟩ := hok3 st' h
              refine ⟨hsub.trans hsub3, hd3, hcf3, ?_, by rw [hbf3, hbf2]; rfl⟩
              intro _
              exact hpr3 hc2

theorem read_file_ok (buf : Buffer) :
    read_file buf ≠ none ∧
    ∀ rd, read_file buf = some (.ok rd) →
      (sigs rd).Pairwise (fun a b => a.1 ≠ b.1) ∧
      (∀ it ∈ rd.items, ProcessedIn buf rd it) ∧
      bfCount rd = 1 ∧
      (0, RTy.bankFile) ∈ sigs rd ∧
      rd.items.length ≤ buf.length ∧
      rd.changed = false := by
  have hreg : Reader.register { items := [], changed := false, log := [] } 0 RTy.bankFile =
      .ok ({ items := [{ offset := 0, ty := RTy.bankFile }], changed := true, log := [] }, 0) := rfl
  unfold read_file
  rw [hreg]
  dsimp only
  obtain ⟨hnn, hok⟩ := resolveFuel_master buf (buf.length + 2)
    { items := [{ offset := 0, ty := RTy.bankFile }], changed := true, log := [] }
    (by simp [sigs]) (by simp) (by simp)
  constructor
  · exact hnn
  · intro rd h
    obtain ⟨hsub, hd', hcf, hpr, hbf⟩ := hok rd h
    have hproc := hpr rfl
    refine ⟨hd', hproc.1, ?_, ?_, hproc.2, hcf⟩
    · rw [hbf]
      rfl
    · exact hsub.subset (by simp [sigs, sigOf])

theorem all_bankFile_length (st : RState) :
    (Reader.all st RTy.bankFile).length = bfCount st := by
  unfold Reader.all bfCount sigs
  rw [List.length_map, List.filter_map, List.length_map]
  rfl

/-- **C1**: if `read_file` succeeds on a buffer, `allOf ALBankFile` on the
resulting reader has exactly one entry, no two item-table slots share an
offset (every reachable offset is registered exactly once no matter how many
parents reference it), the root `(0, ALBankFile)` slot is present, and every
slot holds exactly its decoder's value with all the `(offset, type)` pairs
that decoder registers present in the table. -/
theorem load_dedup_invariant {buf : Buffer} {rd : RState}
    (h : read_file buf = some (.ok rd)) :
    (Reader.all rd RTy.bankFile).length = 1 ∧
    rd.items.Pairwise (fun a b => a.offset ≠ b.offset) ∧
    (0, RTy.bankFile) ∈ sigs rd ∧
    ∀ it ∈ rd.items, ProcessedIn buf rd it := by
  obtain ⟨hd', hproc, hbf, hroot, hlen, hcf⟩ := (read_file_ok buf).2 rd h
  refine ⟨by rw [all_bankFile_length, hbf], ?_, hroot, hproc⟩
  have h2 := (List.pairwise_map).mp hd'
  exact h2

set_option maxRecDepth 80000 in
/-- Witness for C1 at the 124-byte full-graph buffer. -/
theorem load_dedup_invariant_witness :
    read_file buf124 = some (.ok rd124) ∧
    ((Reader.all rd124 RTy.bankFile).length = 1 ∧
     rd124.items.Pairwise (fun a b => a.offset ≠ b.offset) ∧
     (0, RTy.bankFile) ∈ sigs rd124 ∧
     ∀ it ∈ rd124.items, ProcessedIn buf124 rd124 it) :=
  ⟨by rfl, load_dedup_invariant (by rfl)⟩

/-- **C3**: the resolution loop terminates on every input buffer: the fuelled
embedding (`buf.length + 2` passes of at most `buf.length + 2` iterations)
never runs out of fuel, a successful load ends with the `changed` flag clear
and at most `buf.length` slots, and each pass over a clean, duplicate-free
state grows the registered-signature list monotonically, registers at least
one new slot whenever it sets `changed` (otherwise it is the last pass), and
is bounded by the buffer length. -/
theorem resolve_terminates (buf : Buffer) :
    read_file buf ≠ none ∧
    (∀ rd, read_file buf = some (.ok rd) →
      rd.changed = false ∧ rd.items.length ≤ buf.length) ∧
    ∀ st st', (sigs st).Pairwise (fun a b => a.1 ≠ b.1) →
      passFrom buf (buf.length + 2) { st with changed := false } 0 = some (.ok st') →
      sigs st <+: sigs st' ∧
      (st'.changed = true → st.items.length < st'.items.length) ∧
      st'.items.length ≤ buf.length := by
  refine ⟨(read_file_ok buf).1, ?_, ?_⟩
  · intro rd h
    obtain ⟨-, -, -, -, hlen, hcf⟩ := (read_file_ok buf).2 rd h
    exact ⟨hcf, hlen⟩
  · intro st st' hd hpass
    obtain ⟨-, hpost⟩ := passFrom_master buf (buf.length + 2) 0 { st with changed := false }
      hd (Nat.zero_le _) (fun j hj => absurd hj (by omega)) (by omega)
    obtain ⟨hsub, -, -, hchg, -, hlen⟩ := hpost st' hpass
    refine ⟨hsub, ?_, hlen⟩
    intro hc
    rcases hchg hc with hfalse | hg
    · exact absurd hfalse (by simp)
    · exact hg

set_option maxRecDepth 80000 in
/-- Witness for C3: `read_file` terminates (with fuel to spare) on the
124-byte full-graph buffer. -/
theorem resolve_terminates_witness : read_file buf124 ≠ none :=
  (resolve_terminates buf124).1

theorem rdBytesM_ok_of {buf : Buffer} {pos p : Int} {n : Nat} {bs : List Nat}
    (h : rdBytes buf pos n = .ok (bs, p)) (hpos : 0 ≤ pos) :
    rdBytesM buf pos n = .ok bs := by
  unfold rdBytesM resolveOff
  rw [if_neg (by omega), h]
  rfl

theorem rdS16SeqM_ok_of {buf : Buffer} :
    ∀ {k : Nat} {pos p' : Int} {cs : List Int},
      rdS16Seq buf pos k = .ok (cs, p') → 0 ≤ pos → rdS16SeqM buf pos k = .ok cs := by
  intro k
  induction k with
  | zero =>
    intro pos p' cs h hpos
    simp only [rdS16Seq] at h
    obtain ⟨h1, h2⟩ := Prod.mk.injEq .. ▸ (Except.ok.inj h)
    rw [← h1]
    rfl
  | succ k ih =>
    intro pos p' cs h hpos
    simp only [rdS16Seq] at h
    obtain ⟨⟨bs, p⟩, hrd, h⟩ := exceptBind_ok h
    dsimp only at h
    obtain ⟨⟨rest, p2⟩, hseq, h⟩ := exceptBind_ok h
    dsimp only at h
    obtain ⟨h1, h2⟩ := Prod.mk.injEq .. ▸ (Except.ok.inj h)
    obtain ⟨-, -, -, hp, -⟩ := rdBytes_ok hrd
    have hp2 : p = pos + 2 := by rw [hp]; norm_num
    simp only [rdS16SeqM]
    rw [rdBytesM_ok_of hrd hpos, ok_bind]
    rw [hp2] at hseq
    rw [ih hseq (by omega), ok_bind, ← h1]
    rfl

theorem mapM_ok_forall2 {α β : Type} {f : α → Except Err β} :
    ∀ {l : List α} {ys : List β}, l.mapM f = .ok ys →
      List.Forall₂ (fun x y => f x = .ok y) l ys := by
  intro l
  induction l with
  | nil =>
    intro ys h
    simp only [List.mapM_nil] at h
    rw [← Except.ok.inj h]
    exact List.Forall₂.nil
  | cons x tl ih =>
    intro ys h
    rw [List.mapM_cons] at h
    obtain ⟨y, hy, h⟩ := exceptBind_ok h
    obtain ⟨ytl, hytl, h⟩ := exceptBind_ok h
    rw [← Except.ok.inj h]
    exact List.Forall₂.cons hy (ih hytl)

theorem forall2_impl {α β : Type} {f : α → Except Err β} {R : α → β → Prop} :
    ∀ {l : List α} {ys : List β}, List.Forall₂ (fun x y => f x = .ok y) l ys →
      (∀ x ∈ l, ∀ y, f x = .ok y → R x y) → List.Forall₂ R l ys := by
  intro l ys h
  induction h with
  | nil => intro _; exact List.Forall₂.nil
  | cons hxy htl ih =>
    intro hall
    exact List.Forall₂.cons (hall _ (by simp) _ hxy)
      (ih (fun x hx y hy => hall x (by simp [hx]) y hy))

theorem find_offset_of_distinct :
    ∀ {l : List RItem}, l.Pairwise (fun a b => a.offset ≠ b.offset) →
      ∀ {it : RItem}, it ∈ l → l.find? (fun x => x.offset == it.offset) = some it := by
  intro l
  induction l with
  | nil => intro _ it hit; exact absurd hit (List.not_mem_nil it)
  | cons a tl ih =>
    intro hd it hit
    rw [List.pairwise_cons] at hd
    rcases List.mem_cons.mp hit with rfl | hmem
    · rw [List.find?_cons_of_pos]
      simp
    · rw [List.find?_cons_of_neg]
      · exact ih hd.2 hmem
      · simp only [beq_iff_eq]
        exact hd.1 it hmem

theorem reader_get_eq {rd : RState} (hd : (sigs rd).Pairwise (fun a b => a.1 ≠ b.1))
    {it : RItem} (hit : it ∈ rd.items) : Reader.get rd it.offset = it.value := by
  unfold Reader.get
  have hd1 : (rd.items.map sigOf).Pairwise (fun a b => a.1 ≠ b.1) := hd
  have hd2 := List.pairwise_map.mp hd1
  rw [find_offset_of_distinct hd2 hit]

theorem sig_item {buf : Buffer} {rd : RState}
    (hr : read_file buf = some (.ok rd)) {o : Int} {ty : RTy}
    (hmem : (o, ty) ∈ sigs rd) :
    ∃ it ∈ rd.items, it.offset = o ∧ it.ty = ty ∧
      ∃ v e regs, unpackPure ty buf o = .ok (v, e, regs) ∧
        it.value = some v ∧ Reader.get rd o = some v ∧ ∀ p ∈ regs, p ∈ sigs rd := by
  obtain ⟨hd, hproc, -, -, -, -⟩ := (read_file_ok buf).2 rd hr
  obtain ⟨it, hit, hsig⟩ := List.mem_map.mp hmem
  have ho : it.offset = o := congrArg Prod.fst hsig
  have hty : it.ty = ty := congrArg Prod.snd hsig
  obtain ⟨v, e, regs, hup, hval, -, hregs⟩ := hproc it hit
  refine ⟨it, hit, ho, hty, v, e, regs, ?_, hval, ?_, hregs⟩
  · rw [← ho, ← hty]
    exact hup
  · rw [← ho, reader_get_eq hd hit]
    exact hval

theorem mBook_agree {buf : Buffer} {rd : RState}
    (hr : read_file buf = some (.ok rd)) {o : Int}
    (hmem : (o, RTy.adpcmBook) ∈ sigs rd) {mb : MBook}
    (hm : mUnpackBook buf o = .ok mb) : RelBook rd o mb := by
  obtain ⟨it, hit, ho, hty, v, e, regs, hup, hval, hget, hregs⟩ := sig_item hr hmem
  obtain ⟨⟨hb, e2, r2⟩, hhu, hmk⟩ := exceptMap_ok hup
  unfold hUnpackBook at hhu
  obtain ⟨⟨h, p⟩, hrd1, hhu⟩ := exceptBind_ok hhu
  dsimp only at hhu
  obtain ⟨⟨cs, p2⟩, hseq, hhu⟩ := exceptBind_ok hhu
  dsimp only at hhu
  have hhb : hb = ⟨fS32 h 0, fS32 h 4, cs⟩ :=
    (congrArg Prod.fst (Except.ok.inj hhu)).symm
  obtain ⟨hpos, -, -, hp, -⟩ := rdBytes_ok hrd1
  have hp8 : p = o + 8 := by rw [hp]; norm_num
  unfold mUnpackBook at hm
  obtain ⟨h', hrd1', hm⟩ := exceptBind_ok hm
  obtain ⟨cs', hseq', hm⟩ := exceptBind_ok hm
  have hmbv : mb = ⟨fS32 h' 0, fS32 h' 4, cs'⟩ := (Except.ok.inj hm).symm
  have hh' : h = h' := by
    rw [rdBytesM_ok_of hrd1 hpos] at hrd1'
    exact Except.ok.inj hrd1'
  subst hh'
  rw [hp8] at hseq
  rw [rdS16SeqM_ok_of hseq (by omega)] at hseq'
  have hcs : cs = cs' := Except.ok.inj hseq'
  subst hcs
  subst hmbv
  subst hhb
  refine ⟨⟨fS32 h 0, fS32 h 4, cs⟩, ?_, rfl, rfl, rfl⟩
  have hv : RVal.adpcmBook ⟨fS32 h 0, fS32 h 4, cs⟩ = v := congrArg Prod.fst hmk
  rw [hget, ← hv]

theorem mWaveTable_agree {buf : Buffer} {rd : RState}
    (hr : read_file buf = some (.ok rd)) {o : Int}
    (hmem : (o, RTy.waveTable) ∈ sigs rd) {mw : MWaveTable}
    (hm : mUnpackWaveTable buf o = .ok mw) : RelWaveTable rd o mw := by
  obtain ⟨it, hit, ho, hty, v, e, regs, hup, hval, hget, hregs⟩ := sig_item hr hmem
  obtain ⟨⟨hw, e2, r2⟩, hhu, hmk⟩ := exceptMap_ok hup
  unfold hUnpackWaveTable at hhu
  obtain ⟨⟨h, p⟩, hrd1, hhu⟩ := exceptBind_ok hhu
  dsimp only at hhu
  obtain ⟨hpos, -, -, hp, -⟩ := rdBytes_ok hrd1
  have hp12 : p = o + 12 := by rw [hp]; norm_num
  split at hhu
  · exact absurd hhu (by simp)
  · split at hhu
    · exact absurd hhu (by simp)
    · split at hhu
      · next ht0 =>
        obtain ⟨⟨lb, p'⟩, hrd2, hhu⟩ := exceptBind_ok hhu
        dsimp only at hhu
        have hinj := Except.ok.inj hhu
        obtain ⟨hA, hBC⟩ := Prod.mk.injEq .. ▸ hinj
        obtain ⟨hB, hC⟩ := Prod.mk.injEq .. ▸ hBC
        subst hA
        subst hC
        obtain ⟨hV, hEC⟩ := Prod.mk.injEq .. ▸ hmk
        obtain ⟨hE, hR⟩ := Prod.mk.injEq .. ▸ hEC
        subst hV
        subst hR
        unfold mUnpackWaveTable at hm
        obtain ⟨h2, hrd1', hm⟩ := exceptBind_ok hm
        have hh2 : h = h2 := by
          rw [rdBytesM_ok_of hrd1 hpos] at hrd1'
          exact Except.ok.inj hrd1'
        subst hh2
        rw [if_pos ht0] at hm
        obtain ⟨lb2, hrd2', hm⟩ := exceptBind_ok hm
        rw [hp12] at hrd2
        have hlb : lb = lb2 := by
          rw [rdBytesM_ok_of hrd2 (by omega)] at hrd2'
          exact Except.ok.inj hrd2'
        subst hlb
        obtain ⟨u, -, hm⟩ := exceptBind_ok hm
        obtain ⟨mbk, hmbk, hm⟩ := exceptBind_ok hm
        have hmwv : mw = ⟨fU32 h 0, fS32 h 4, fU8 h 8, fU8 h 9, some mbk⟩ :=
          (Except.ok.inj hm).symm
        subst hmwv
        refine ⟨_, hget, rfl, rfl, rfl, rfl, ?_⟩
        intro bo hbo
        dsimp only at hbo
        split at hbo
        · next hb4 =>
          refine ⟨mbk, rfl, ?_⟩
          have hbo2 : fU32 lb 4 = bo := Option.some.inj hbo
          rw [← hbo2]
          apply mBook_agree hr ?_ hmbk
          apply hregs
          apply List.mem_append_right
          rw [if_pos hb4]
          exact List.mem_singleton.mpr rfl
        · exact absurd hbo (by simp)
      · split at hhu
        · obtain ⟨⟨x2, p2'⟩, -, hhu⟩ := exceptBind_ok hhu
          exact absurd hhu (by simp)
        · exact absurd hhu (by simp)

theorem mSound_agree {buf : Buffer} {rd : RState}
    (hr : read_file buf = some (.ok rd)) {o : Int}
    (hmem : (o, RTy.sound) ∈ sigs rd) {ms : MSound}
    (hm : mUnpackSound buf o = .ok ms) : RelSound rd o ms := by
  obtain ⟨it, hit, ho, hty, v, e, regs, hup, hval, hget, hregs⟩ := sig_item hr hmem
  obtain ⟨⟨hs, e2, r2⟩, hhu, hmk⟩ := exceptMap_ok hup
  unfold hUnpackSound at hhu
  obtain ⟨⟨h, p⟩, hrd1, hhu⟩ := exceptBind_ok hhu
  dsimp only at hhu
  obtain ⟨hpos, -, -, hp, -⟩ := rdBytes_ok hrd1
  have hinj := Except.ok.inj hhu
  obtain ⟨hA, hBC⟩ := Prod.mk.injEq .. ▸ hinj
  obtain ⟨hB, hC⟩ := Prod.mk.injEq .. ▸ hBC
  subst hA
  subst hC
  obtain ⟨hV, hEC⟩ := Prod.mk.injEq .. ▸ hmk
  obtain ⟨hE, hR⟩ := Prod.mk.injEq .. ▸ hEC
  subst hV
  subst hR
  unfold mUnpackSound at hm
  obtain ⟨h2, hrd1', hm⟩ := exceptBind_ok hm
  have hh2 : h = h2 := by
    rw [rdBytesM_ok_of hrd1 hpos] at hrd1'
    exact Except.ok.inj hrd1'
  subst hh2
  obtain ⟨wt, hwt, hm⟩ := exceptBind_ok hm
  have hmsv : ms = ⟨fU32 h 0, fU32 h 4, wt, fU8 h 12, fU8 h 13, fU8 h 14⟩ :=
    (Except.ok.inj hm).symm
  subst hmsv
  refine ⟨_, hget, rfl, rfl, rfl, rfl, rfl, ?_⟩
  apply mWaveTable_agree hr ?_ hwt
  apply hregs
  exact List.mem_cons_self _ _

theorem mInstrument_agree {buf : Buffer} {rd : RState}
    (hr : read_file buf = some (.ok rd)) {o : Int}
    (hmem : (o, RTy.instrument) ∈ sigs rd) {mi : MInstrument}
    (hm : mUnpackInstrument buf o = .ok mi) : RelInstrument rd o mi := by
  obtain ⟨it, hit, ho, hty, v, e, regs, hup, hval, hget, hregs⟩ := sig_item hr hmem
  obtain ⟨⟨hi, e2, r2⟩, hhu, hmk⟩ := exceptMap_ok hup
  unfold hUnpackInstrument at hhu
  obtain ⟨⟨h, p⟩, hrd1, hhu⟩ := exceptBind_ok hhu
  dsimp only at hhu
  obtain ⟨n, hn, hhu⟩ := exceptBind_ok hhu
  obtain ⟨⟨ab, p'⟩, hrd2, hhu⟩ := exceptBind_ok hhu
  dsimp only at hhu
  obtain ⟨hpos, -, -, hp, -⟩ := rdBytes_ok hrd1
  have hp16 : p = o + 16 := by rw [hp]; norm_num
  have hinj := Except.ok.inj hhu
  obtain ⟨hA, hBC⟩ := Prod.mk.injEq .. ▸ hinj
  obtain ⟨hB, hC⟩ := Prod.mk.injEq .. ▸ hBC
  subst hA
  subst hC
  obtain ⟨hV, hEC⟩ := Prod.mk.injEq .. ▸ hmk
  obtain ⟨hE, hR⟩ := Prod.mk.injEq .. ▸ hEC
  subst hV
  subst hR
  unfold mUnpackInstrument at hm
  obtain ⟨h2, hrd1', hm⟩ := exceptBind_ok hm
  have hh2 : h = h2 := by
    rw [rdBytesM_ok_of hrd1 hpos] at hrd1'
    exact Except.ok.inj hrd1'
  subst hh2
  obtain ⟨n2, hn2, hm⟩ := exceptBind_ok hm
  rw [hn] at hn2
  have hnn : n = n2 := Except.ok.inj hn2
  subst hnn
  obtain ⟨ab2, hrd2', hm⟩ := exceptBind_ok hm
  rw [hp16] at hrd2
  have hab : ab = ab2 := by
    rw [rdBytesM_ok_of hrd2 (by omega)] at hrd2'
    exact Except.ok.inj hrd2'
  subst hab
  obtain ⟨sounds, hsnds, hm⟩ := exceptBind_ok hm
  have hmi : mi = ⟨fU8 h 0, fU8 h 1, fU8 h 2, fU8 h 3, fU8 h 4, fU8 h 5, fU8 h 6,
      fU8 h 7, fU8 h 8, fU8 h 9, fU8 h 10, fU8 h 11, fS16 h 12, fS16 h 14, sounds⟩ :=
    (Except.ok.inj hm).symm
  subst hmi
  refine ⟨_, hget, rfl, rfl, rfl, rfl, rfl, rfl, rfl, rfl, rfl, rfl, rfl, rfl,
    rfl, rfl, ?_⟩
  apply forall2_impl (mapM_ok_forall2 hsnds)
  intro x hx y hy
  apply mSound_agree hr ?_ hy
  apply hregs
  exact List.mem_map.mpr ⟨x, hx, rfl⟩

theorem mBank_agree {buf : Buffer} {rd : RState}
    (hr : read_file buf = some (.ok rd))
    (hnz : rd.items.all bankNoZero = true) {o : Int}
    (hmem : (o, RTy.bank) ∈ sigs rd) {mb : MBank}
    (hm : mUnpackBank buf o = .ok mb) : RelBank rd o mb := by
  obtain ⟨it, hit, ho, hty, v, e, regs, hup, hval, hget, hregs⟩ := sig_item hr hmem
  obtain ⟨⟨hb, e2, r2⟩, hhu, hmk⟩ := exceptMap_ok hup
  unfold hUnpackBank at hhu
  obtain ⟨⟨h, p⟩, hrd1, hhu⟩ := exceptBind_ok hhu
  dsimp only at hhu
  obtain ⟨n, hn, hhu⟩ := exceptBind_ok hhu
  obtain ⟨⟨ab, p'⟩, hrd2, hhu⟩ := exceptBind_ok hhu
  dsimp only at hhu
  obtain ⟨hpos, -, -, hp, -⟩ := rdBytes_ok hrd1
  have hp8 : p = o + 8 := by rw [hp]; norm_num
  have hinj := Except.ok.inj hhu
  obtain ⟨hA, hBC⟩ := Prod.mk.injEq .. ▸ hinj
  obtain ⟨hB, hC⟩ := Prod.mk.injEq .. ▸ hBC
  subst hA
  subst hC
  obtain ⟨hV, hEC⟩ := Prod.mk.injEq .. ▸ hmk
  obtain ⟨hE, hR⟩ := Prod.mk.injEq .. ▸ hEC
  subst hV
  subst hR
  have hb0 : bankNoZero it = true := List.all_eq_true.mp hnz it hit
  unfold bankNoZero at hb0
  rw [hval] at hb0
  dsimp only at hb0
  have hz : ∀ x ∈ s32Array ab 4 n, x ≠ 0 := by
    intro x hx
    simpa using List.all_eq_true.mp hb0 x hx
  unfold mUnpackBank at hm
  obtain ⟨h2, hrd1', hm⟩ := exceptBind_ok hm
  have hh2 : h = h2 := by
    rw [rdBytesM_ok_of hrd1 hpos] at hrd1'
    exact Except.ok.inj hrd1'
  subst hh2
  obtain ⟨n2, hn2, hm⟩ := exceptBind_ok hm
  rw [hn] at hn2
  have hnn : n = n2 := Except.ok.inj hn2
  subst hnn
  obtain ⟨ab2, hrd2', hm⟩ := exceptBind_ok hm
  rw [hp8] at hrd2
  have hab : ab = ab2 := by
    rw [rdBytesM_ok_of hrd2 (by omega)] at hrd2'
    exact Except.ok.inj hrd2'
  subst hab
  dsimp only at hm
  split at hm
  · next hpc =>
    obtain ⟨y, hy, hm⟩ := exceptBind_ok hm
    obtain ⟨mi0, hmi0, hsome⟩ := exceptMap_ok hy
    obtain ⟨insts, hinsts, hm⟩ := exceptBind_ok hm
    have hmb : mb = ⟨fS16 h 0, fU8 h 2, fU8 h 3, fS32 h 4, y, insts⟩ :=
      (Except.ok.inj hm).symm
    subst hmb
    subst hsome
    refine ⟨_, hget, rfl, rfl, rfl, rfl, ?_, ?_, ?_⟩
    · intro mi hmi
      dsimp only at hmi
      have hmi' : mi0 = mi := Option.some.inj hmi
      subst hmi'
      refine ⟨hpc, ?_⟩
      apply mInstrument_agree hr ?_ hmi0
      apply hregs
      apply List.mem_append_left
      rw [if_pos hpc]
      exact List.mem_singleton.mpr rfl
    · intro hmi
      dsimp only at hmi
      exact absurd hmi (by simp)
    · apply forall2_impl (mapM_ok_forall2 hinsts)
      intro x hx y2 hy2
      apply mInstrument_agree hr ?_ hy2
      apply hregs
      apply List.mem_append_right
      refine List.mem_map.mpr ⟨x, ?_, rfl⟩
      exact List.mem_filter.mpr ⟨hx, by simp [hz x hx]⟩
  · next hpc =>
    obtain ⟨y, hy, hm⟩ := exceptBind_ok hm
    have hyn : none = y := Except.ok.inj hy
    obtain ⟨insts, hinsts, hm⟩ := exceptBind_ok hm
    have hmb : mb = ⟨fS16 h 0, fU8 h 2, fU8 h 3, fS32 h 4, y, insts⟩ :=
      (Except.ok.inj hm).symm
    subst hmb
    subst hyn
    refine ⟨_, hget, rfl, rfl, rfl, rfl, ?_, ?_, ?_⟩
    · intro mi hmi
      dsimp only at hmi
      exact absurd hmi (by simp)
    · intro hmi
      show fS32 ab 0 = 0
      exact not_ne_iff.mp hpc
    · apply forall2_impl (mapM_ok_forall2 hinsts)
      intro x hx y2 hy2
      apply mInstrument_agree hr ?_ hy2
      apply hregs
      apply List.mem_append_right
      refine List.mem_map.mpr ⟨x, ?_, rfl⟩
      exact List.mem_filter.mpr ⟨hx, by simp [hz x hx]⟩

/-- **C10**: on any buffer where the fixpoint reader (`read_file`) and the
recursive-descent decoder (`mUnpackBankFile`) both succeed, every bank slot's
`instArray` is zero-free, and every wave table carries the compressed-ADPCM
discriminator, the two loaders decode identical scalar fields for the bank
file and for each bank, instrument, sound, wave table and codebook reachable
from the root (`RelBankFile`). -/
theorem loaders_agree {buf : Buffer} {rd : RState} {mf : MBankFile}
    (hr : read_file buf = some (.ok rd))
    (hm : mUnpackBankFile buf = .ok mf)
    (hnz : rd.items.all bankNoZero = true)
    (hwt : rd.items.all wtAdpcm = true) :
    RelBankFile rd mf := by
  have hroot : ((0 : Int), RTy.bankFile) ∈ sigs rd := ((read_file_ok buf).2 rd hr).2.2.2.1
  obtain ⟨it, hit, ho, hty, v, e, regs, hup, hval, hget, hregs⟩ := sig_item hr hroot
  obtain ⟨⟨hf, e2, r2⟩, hhu, hmk⟩ := exceptMap_ok hup
  unfold hUnpackBankFile at hhu
  obtain ⟨⟨h, p⟩, hrd1, hhu⟩ := exceptBind_ok hhu
  dsimp only at hhu
  obtain ⟨n, hn, hhu⟩ := exceptBind_ok hhu
  obtain ⟨⟨ab, p'⟩, hrd2, hhu⟩ := exceptBind_ok hhu
  dsimp only at hhu
  obtain ⟨-, -, -, hp, -⟩ := rdBytes_ok hrd1
  have hp4 : p = 4 := by rw [hp]; norm_num
  have hinj := Except.ok.inj hhu
  obtain ⟨hA, hBC⟩ := Prod.mk.injEq .. ▸ hinj
  obtain ⟨hB, hC⟩ := Prod.mk.injEq .. ▸ hBC
  subst hA
  subst hC
  obtain ⟨hV, hEC⟩ := Prod.mk.injEq .. ▸ hmk
  obtain ⟨hE, hR⟩ := Prod.mk.injEq .. ▸ hEC
  subst hV
  subst hR
  unfold mUnpackBankFile at hm
  obtain ⟨h2, hrd1', hm⟩ := exceptBind_ok hm
  have hh2 : h = h2 := by
    rw [rdBytesM_ok_of hrd1 (by norm_num)] at hrd1'
    exact Except.ok.inj hrd1'
  subst hh2
  obtain ⟨n2, hn2, hm⟩ := exceptBind_ok hm
  rw [hn] at hn2
  have hnn : n = n2 := Except.ok.inj hn2
  subst hnn
  obtain ⟨ab2, hrd2', hm⟩ := exceptBind_ok hm
  rw [hp4] at hrd2
  have hab : ab = ab2 := by
    rw [rdBytesM_ok_of hrd2 (by norm_num)] at hrd2'
    exact Except.ok.inj hrd2'
  subst hab
  obtain ⟨banks, hbanks, hm⟩ := exceptBind_ok hm
  have hmf : mf = ⟨fS16 h 0, fS16 h 2, banks⟩ := (Except.ok.inj hm).symm
  subst hmf
  refine ⟨_, hget, rfl, rfl, ?_⟩
  apply forall2_impl (mapM_ok_forall2 hbanks)
  intro x hx y hy
  apply mBank_agree hr hnz ?_ hy
  apply hregs
  exact List.mem_map.mpr ⟨x, hx, rfl⟩

set_option maxRecDepth 80000 in
/-- Witness for C10: the 124-byte full-graph buffer loads under both decoders
with agreeing results. -/
theorem loaders_agree_witness :
    read_file buf124 = some (.ok rd124) ∧ mUnpackBankFile buf124 = .ok mf124 ∧
    rd124.items.all bankNoZero = true ∧ rd124.items.all wtAdpcm = true ∧
    RelBankFile rd124 mf124 :=
  ⟨by rfl, by rfl, by rfl, by rfl,
   @loaders_agree buf124 rd124 mf124 (by rfl) (by rfl) (by rfl) (by rfl)⟩
